import Mathlib

/-!
Verification development for the bytebase slow-query sync runner
(`backend/runner/slowquerysync`) and the task-DAG store
(`backend/store/task_dag.go`).

Modelling conventions:
* timestamps are integers (seconds since epoch); `DAY` is one day of
  seconds, `truncateDay` models Go's `time.Truncate(24 * time.Hour)`;
* Go `time.Duration` values (nanoseconds) are modelled as `Int`;
  counts and row counters are `Nat` (overflow is not relevant to any
  claim proved here);
* Go maps that are iterated or extended during the merge are modelled
  as association lists with Go's insertion/overwrite semantics;
* fallible store/driver calls are modelled by `Except String` results
  supplied by an environment record, and the routines additionally
  return the store state and the list of performed operations.
-/

/-- Item of `storepb.SlowQueryStatistics` (cumulative fields). -/
structure SlowQueryStatisticsItem where
  sqlFingerprint : String
  count : Nat
  latestLogTime : Int
  totalQueryTime : Int
  maximumQueryTime : Int
  totalRowsSent : Nat
deriving DecidableEq

/-- Value type of `storepb.SlowQueryStatistics`: a bag of per-fingerprint items. -/
structure SlowQueryStatistics where
  items : List SlowQueryStatisticsItem
deriving DecidableEq

/-- Item of `v1pb.SlowQueryLog.Statistics` (average-based fields), as read
back from the store by `ListSlowQuery`. -/
structure V1SlowQueryStatisticsItem where
  sqlFingerprint : String
  count : Nat
  latestLogTime : Int
  averageQueryTime : Int
  maximumQueryTime : Int
  averageRowsSent : Nat
deriving DecidableEq

/-- A persisted slow-query log record (`v1pb.SlowQueryLog`). -/
structure SlowQueryLog where
  statistics : V1SlowQueryStatisticsItem
deriving DecidableEq

/-- Lookup in the fingerprint-keyed status map of `pgMergeSlowQueryLog`. -/
def lookupFp : List (String × SlowQueryStatisticsItem) → String → Option SlowQueryStatisticsItem
  | [], _ => none
  | (g, v) :: rest, f => if g = f then some v else lookupFp rest f

/-- Map write `status[f] = v`: overwrite the binding if the key is present,
append it otherwise (Go map semantics). -/
def setFp : List (String × SlowQueryStatisticsItem) → String → SlowQueryStatisticsItem →
    List (String × SlowQueryStatisticsItem)
  | [], f, v => [(f, v)]
  | (g, w) :: rest, f, v => if g = f then (g, v) :: rest else (g, w) :: setFp rest f v

/-- New map entry built by the fingerprint-absent branch of
`pgMergeSlowQueryLog`: cumulative fields are reconstructed from the persisted
record's average-based fields. -/
def reconstructItem (l : SlowQueryLog) : SlowQueryStatisticsItem :=
  { sqlFingerprint := l.statistics.sqlFingerprint
    count := l.statistics.count
    latestLogTime := l.statistics.latestLogTime
    totalQueryTime := l.statistics.averageQueryTime * (l.statistics.count : Int)
    maximumQueryTime := l.statistics.maximumQueryTime
    totalRowsSent := l.statistics.averageRowsSent * l.statistics.count }

/-- Update performed by the fingerprint-present branch of
`pgMergeSlowQueryLog`. -/
def accumulateItem (v : SlowQueryStatisticsItem) (l : SlowQueryLog) : SlowQueryStatisticsItem :=
  { v with
    count := v.count + l.statistics.count
    totalQueryTime := v.totalQueryTime + l.statistics.averageQueryTime * (l.statistics.count : Int)
    maximumQueryTime :=
      if v.maximumQueryTime < l.statistics.maximumQueryTime then l.statistics.maximumQueryTime
      else v.maximumQueryTime
    totalRowsSent := v.totalRowsSent + l.statistics.averageRowsSent * l.statistics.count }

/-- One iteration of the `for _, log := range logs` loop of
`pgMergeSlowQueryLog`. -/
def pgMergeStep (m : List (String × SlowQueryStatisticsItem)) (l : SlowQueryLog) :
    List (String × SlowQueryStatisticsItem) :=
  match lookupFp m l.statistics.sqlFingerprint with
  | none => setFp m l.statistics.sqlFingerprint (reconstructItem l)
  | some v => setFp m l.statistics.sqlFingerprint (accumulateItem v l)

/-- Seeding loop of `pgMergeSlowQueryLog`: `status[item.SqlFingerprint] = item`
for each existing item. -/
def seedStatusMap (items : List SlowQueryStatisticsItem) :
    List (String × SlowQueryStatisticsItem) :=
  items.foldl (fun m it => setFp m it.sqlFingerprint it) []

/-- Model of `pgMergeSlowQueryLog`: seed a fingerprint-keyed map from the
existing statistics, fold the persisted records into it, and return the map's
values. -/
def pgMergeSlowQueryLog (statistics : SlowQueryStatistics) (logs : List SlowQueryLog) :
    SlowQueryStatistics :=
  { items := (logs.foldl pgMergeStep (seedStatusMap statistics.items)).map Prod.snd }

/-- First item carrying a given fingerprint in a statistics value. -/
def findItem (s : SlowQueryStatistics) (f : String) : Option SlowQueryStatisticsItem :=
  s.items.find? (fun it => it.sqlFingerprint == f)

/-- Per-fingerprint contribution of one persisted record, as performed by
`pgMergeStep` on the tracked key. -/
def contribStep (o : Option SlowQueryStatisticsItem) (l : SlowQueryLog) :
    Option SlowQueryStatisticsItem :=
  match o with
  | none => some (reconstructItem l)
  | some v => some (accumulateItem v l)

/-- Fold of `contribStep` over a record list. -/
def contribFold (o : Option SlowQueryStatisticsItem) (ls : List SlowQueryLog) :
    Option SlowQueryStatisticsItem :=
  ls.foldl contribStep o

/-- Last item of the list carrying a given fingerprint (the seed map keeps the
last occurrence, matching Go map overwrite). -/
def lastItemWith (items : List SlowQueryStatisticsItem) (f : String) :
    Option SlowQueryStatisticsItem :=
  items.foldl (fun o it => if it.sqlFingerprint = f then some it else o) none

theorem lookupFp_setFp_self (m : List (String × SlowQueryStatisticsItem)) (f : String)
    (v : SlowQueryStatisticsItem) : lookupFp (setFp m f v) f = some v := by
  induction m with
  | nil => simp [setFp, lookupFp]
  | cons p rest ih =>
    obtain ⟨g, w⟩ := p
    by_cases h : g = f
    · simp [setFp, lookupFp, h]
    · simp [setFp, lookupFp, h, ih]

theorem lookupFp_setFp_ne (m : List (String × SlowQueryStatisticsItem)) {f g : String}
    (v : SlowQueryStatisticsItem) (h : g ≠ f) :
    lookupFp (setFp m f v) g = lookupFp m g := by
  induction m with
  | nil =>
    have hfg : ¬f = g := fun hh => h hh.symm
    simp [setFp, lookupFp, hfg]
  | cons p rest ih =>
    obtain ⟨k, w⟩ := p
    by_cases hk : k = f
    · subst hk
      have hkg : ¬k = g := fun hh => h hh.symm
      simp [setFp, lookupFp, hkg]
    · simp [setFp, lookupFp, hk, ih]

theorem lookupFp_seed_fold (items : List SlowQueryStatisticsItem)
    (acc : List (String × SlowQueryStatisticsItem)) (f : String) :
    lookupFp (items.foldl (fun m it => setFp m it.sqlFingerprint it) acc) f =
      items.foldl (fun o it => if it.sqlFingerprint = f then some it else o) (lookupFp acc f) := by
  induction items generalizing acc with
  | nil => simp
  | cons it rest ih =>
    simp only [List.foldl_cons]
    rw [ih]
    by_cases h : it.sqlFingerprint = f
    · rw [h, lookupFp_setFp_self, if_pos rfl]
    · rw [lookupFp_setFp_ne _ _ (fun hh => h hh.symm), if_neg h]

theorem lookupFp_seedStatusMap (items : List SlowQueryStatisticsItem) (f : String) :
    lookupFp (seedStatusMap items) f = lastItemWith items f := by
  rw [seedStatusMap, lookupFp_seed_fold, lookupFp, lastItemWith]

theorem lookupFp_pgMergeFold (logs : List SlowQueryLog)
    (m : List (String × SlowQueryStatisticsItem)) (f : String) :
    lookupFp (logs.foldl pgMergeStep m) f =
      contribFold (lookupFp m f) (logs.filter (fun l => l.statistics.sqlFingerprint == f)) := by
  induction logs generalizing m with
  | nil => simp [contribFold]
  | cons l rest ih =>
    simp only [List.foldl_cons, List.filter_cons]
    by_cases h : l.statistics.sqlFingerprint = f
    · rw [ih]
      have hm : lookupFp (pgMergeStep m l) f = contribStep (lookupFp m f) l := by
        rw [pgMergeStep, h]
        cases hv : lookupFp m f <;> simp [contribStep, hv, lookupFp_setFp_self]
      simp [h, hm, contribFold]
    · have hm : lookupFp (pgMergeStep m l) f = lookupFp m f := by
        rw [pgMergeStep]
        cases hv : lookupFp m l.statistics.sqlFingerprint <;>
          simp [lookupFp_setFp_ne _ _ (fun hh => h hh.symm)]
      simp [h, hm, ih]

/-- Every binding of the status map stores an item whose fingerprint equals
its key. -/
def WellKeyed (m : List (String × SlowQueryStatisticsItem)) : Prop :=
  ∀ p ∈ m, p.2.sqlFingerprint = p.1

theorem wellKeyed_nil : WellKeyed [] := by intro p hp; simp at hp

theorem wellKeyed_setFp {m : List (String × SlowQueryStatisticsItem)} {f : String}
    {v : SlowQueryStatisticsItem} (hm : WellKeyed m) (hv : v.sqlFingerprint = f) :
    WellKeyed (setFp m f v) := by
  induction m with
  | nil => intro p hp; simp [setFp] at hp; simp [hp, hv]
  | cons q rest ih =>
    obtain ⟨k, w⟩ := q
    have hrest : WellKeyed rest := fun p hp => hm p (List.mem_cons_of_mem _ hp)
    by_cases hk : k = f
    · intro p hp
      rw [setFp, if_pos hk] at hp
      rcases List.mem_cons.mp hp with h | h
      · simp [h, hv, hk]
      · exact hm p (List.mem_cons_of_mem _ h)
    · intro p hp
      rw [setFp, if_neg hk] at hp
      rcases List.mem_cons.mp hp with h | h
      · exact hm p (h ▸ List.mem_cons_self _ _)
      · exact ih hrest p h

theorem wellKeyed_lookup {m : List (String × SlowQueryStatisticsItem)} {f : String}
    {v : SlowQueryStatisticsItem} (hm : WellKeyed m) (hv : lookupFp m f = some v) :
    v.sqlFingerprint = f := by
  induction m with
  | nil => simp [lookupFp] at hv
  | cons p rest ih =>
    obtain ⟨k, w⟩ := p
    by_cases hk : k = f
    · rw [lookupFp, if_pos hk] at hv
      injection hv with hv'
      subst hv'
      have hw := hm (k, w) (List.mem_cons_self _ _)
      simpa [hk] using hw
    · rw [lookupFp, if_neg hk] at hv
      exact ih (fun p hp => hm p (List.mem_cons_of_mem _ hp)) hv

theorem wellKeyed_seedStatusMap (items : List SlowQueryStatisticsItem) :
    WellKeyed (seedStatusMap items) := by
  rw [seedStatusMap]
  have h : ∀ (acc : List (String × SlowQueryStatisticsItem)), WellKeyed acc →
      WellKeyed (items.foldl (fun m it => setFp m it.sqlFingerprint it) acc) := by
    induction items with
    | nil => intro acc hacc; simpa using hacc
    | cons it rest ih =>
      intro acc hacc
      simp only [List.foldl_cons]
      exact ih _ (wellKeyed_setFp hacc rfl)
  exact h [] wellKeyed_nil

theorem wellKeyed_pgMergeFold {m : List (String × SlowQueryStatisticsItem)}
    (logs : List SlowQueryLog) (hm : WellKeyed m) :
    WellKeyed (logs.foldl pgMergeStep m) := by
  induction logs generalizing m with
  | nil => simpa using hm
  | cons l rest ih =>
    simp only [List.foldl_cons]
    refine ih ?_
    rw [pgMergeStep]
    cases hv : lookupFp m l.statistics.sqlFingerprint with
    | none => exact wellKeyed_setFp hm rfl
    | some v =>
      refine wellKeyed_setFp hm ?_
      have := wellKeyed_lookup hm hv
      simp [accumulateItem, this]

theorem find?_values_eq_lookupFp {m : List (String × SlowQueryStatisticsItem)}
    (hm : WellKeyed m) (f : String) :
    (m.map Prod.snd).find? (fun it => it.sqlFingerprint == f) = lookupFp m f := by
  induction m with
  | nil => simp [lookupFp]
  | cons p rest ih =>
    obtain ⟨k, w⟩ := p
    have hw : w.sqlFingerprint = k := hm (k, w) (List.mem_cons_self _ _)
    have hrest : WellKeyed rest := fun p hp => hm p (List.mem_cons_of_mem _ hp)
    by_cases hk : k = f
    · simp [List.find?, lookupFp, hw, hk]
    · simp only [List.map_cons, List.find?, lookupFp]
      have : (w.sqlFingerprint == f) = false := by
        simp [hw, hk]
      rw [this, if_neg hk]
      exact ih hrest

/-- Master characterization: the merged statistics value at a fingerprint is
the per-fingerprint fold of the record contributions over the last seeded
item. -/
theorem findItem_pgMergeSlowQueryLog (stats : SlowQueryStatistics) (logs : List SlowQueryLog)
    (f : String) :
    findItem (pgMergeSlowQueryLog stats logs) f =
      contribFold (lastItemWith stats.items f)
        (logs.filter (fun l => l.statistics.sqlFingerprint == f)) := by
  rw [findItem, pgMergeSlowQueryLog]
  have hwk : WellKeyed (logs.foldl pgMergeStep (seedStatusMap stats.items)) :=
    wellKeyed_pgMergeFold logs (wellKeyed_seedStatusMap stats.items)
  rw [find?_values_eq_lookupFp hwk, lookupFp_pgMergeFold, lookupFp_seedStatusMap]

theorem lastFold_of_not_mem (items : List SlowQueryStatisticsItem) {f : String}
    (o : Option SlowQueryStatisticsItem) (h : ∀ it ∈ items, it.sqlFingerprint ≠ f) :
    items.foldl (fun o it => if it.sqlFingerprint = f then some it else o) o = o := by
  induction items generalizing o with
  | nil => rfl
  | cons it rest ih =>
    have h0 : it.sqlFingerprint ≠ f := h it (List.mem_cons_self _ _)
    simp only [List.foldl_cons, if_neg h0]
    exact ih o (fun x hx => h x (List.mem_cons_of_mem _ hx))

theorem lastItemWith_of_not_mem {items : List SlowQueryStatisticsItem} {f : String}
    (h : ∀ it ∈ items, it.sqlFingerprint ≠ f) : lastItemWith items f = none :=
  lastFold_of_not_mem items none h

theorem lastItemWith_eq_find? {items : List SlowQueryStatisticsItem} {f : String}
    (h : (items.map (fun it => it.sqlFingerprint)).Nodup) :
    lastItemWith items f = items.find? (fun it => it.sqlFingerprint == f) := by
  induction items with
  | nil => rfl
  | cons it rest ih =>
    have hnotin : it.sqlFingerprint ∉ rest.map (fun it => it.sqlFingerprint) :=
      (List.nodup_cons.mp h).1
    have hrest := (List.nodup_cons.mp h).2
    by_cases hf : it.sqlFingerprint = f
    · have hnone : ∀ x ∈ rest, x.sqlFingerprint ≠ f := by
        intro x hx hxf
        exact hnotin (hf ▸ hxf ▸ List.mem_map_of_mem _ hx)
      rw [lastItemWith]
      simp only [List.foldl_cons, if_pos hf]
      rw [lastFold_of_not_mem rest (some it) hnone]
      simp [List.find?, hf]
    · rw [lastItemWith]
      simp only [List.foldl_cons, if_neg hf]
      have hb : (it.sqlFingerprint == f) = false := by simpa using hf
      simp only [List.find?, hb]
      exact ih hrest

theorem filter_fp_nil {logs : List SlowQueryLog} {f : String}
    (h : ∀ l ∈ logs, l.statistics.sqlFingerprint ≠ f) :
    logs.filter (fun l => l.statistics.sqlFingerprint == f) = [] := by
  induction logs with
  | nil => rfl
  | cons l rest ih =>
    have h0 : (l.statistics.sqlFingerprint == f) = false := by
      simpa using h l (List.mem_cons_self _ _)
    simp [List.filter_cons, h0, ih (fun x hx => h x (List.mem_cons_of_mem _ hx))]

theorem filter_fp_eq_of_find? {logs : List SlowQueryLog} {f : String} {l : SlowQueryLog}
    (hnd : (logs.map (fun l => l.statistics.sqlFingerprint)).Nodup)
    (hfind : logs.find? (fun l => l.statistics.sqlFingerprint == f) = some l) :
    logs.filter (fun l => l.statistics.sqlFingerprint == f) = [l] := by
  induction logs with
  | nil => simp [List.find?] at hfind
  | cons l0 rest ih =>
    have hnotin : l0.statistics.sqlFingerprint ∉
        rest.map (fun l => l.statistics.sqlFingerprint) := (List.nodup_cons.mp hnd).1
    have hrest := (List.nodup_cons.mp hnd).2
    by_cases hf : l0.statistics.sqlFingerprint = f
    · have hb : (l0.statistics.sqlFingerprint == f) = true := by simpa using hf
      rw [List.find?] at hfind
      rw [hb] at hfind
      injection hfind with hfind'
      subst hfind'
      have hnone : ∀ x ∈ rest, x.statistics.sqlFingerprint ≠ f := by
        intro x hx hxf
        exact hnotin (hf ▸ hxf ▸ List.mem_map_of_mem _ hx)
      simp [List.filter_cons, hb, filter_fp_nil hnone]
    · have hb : (l0.statistics.sqlFingerprint == f) = false := by simpa using hf
      rw [List.find?] at hfind
      rw [hb] at hfind
      simp only [List.filter_cons, hb, Bool.false_eq_true, if_false]
      exact ih hrest hfind

/-- C1: per statement fingerprint, `pgMergeSlowQueryLog` inserts a
reconstructed item (`totalQueryTime = averageQueryTime * count`,
`totalRowsSent = averageRowsSent * count`) when the fingerprint is absent
from the existing items, and otherwise accumulates `count` and
`totalQueryTime` by addition, takes the maximum of the two
`maximumQueryTime` values, and accumulates `totalRowsSent` by addition. -/
theorem pgMerge_per_fingerprint (stats : SlowQueryStatistics) (logs : List SlowQueryLog)
    (f : String)
    (hstats : (stats.items.map (fun it => it.sqlFingerprint)).Nodup)
    (hlogs : (logs.map (fun l => l.statistics.sqlFingerprint)).Nodup) :
    ((∀ it ∈ stats.items, it.sqlFingerprint ≠ f) →
      ∀ l, logs.find? (fun l => l.statistics.sqlFingerprint == f) = some l →
        findItem (pgMergeSlowQueryLog stats logs) f = some
          { sqlFingerprint := l.statistics.sqlFingerprint
            count := l.statistics.count
            latestLogTime := l.statistics.latestLogTime
            totalQueryTime := l.statistics.averageQueryTime * (l.statistics.count : Int)
            maximumQueryTime := l.statistics.maximumQueryTime
            totalRowsSent := l.statistics.averageRowsSent * l.statistics.count }) ∧
    (∀ e l, findItem stats f = some e →
      logs.find? (fun l => l.statistics.sqlFingerprint == f) = some l →
        findItem (pgMergeSlowQueryLog stats logs) f = some
          { sqlFingerprint := e.sqlFingerprint
            count := e.count + l.statistics.count
            latestLogTime := e.latestLogTime
            totalQueryTime :=
              e.totalQueryTime + l.statistics.averageQueryTime * (l.statistics.count : Int)
            maximumQueryTime := max e.maximumQueryTime l.statistics.maximumQueryTime
            totalRowsSent := e.totalRowsSent + l.statistics.averageRowsSent * l.statistics.count }) := by
  constructor
  · intro habs l hfind
    rw [findItem_pgMergeSlowQueryLog, filter_fp_eq_of_find? hlogs hfind,
      lastItemWith_of_not_mem habs]
    simp [contribFold, contribStep, reconstructItem]
  · intro e l hfe hfind
    have hlast : lastItemWith stats.items f = some e := by
      rw [lastItemWith_eq_find? hstats]; exact hfe
    rw [findItem_pgMergeSlowQueryLog, filter_fp_eq_of_find? hlogs hfind, hlast]
    have hmax : (if e.maximumQueryTime < l.statistics.maximumQueryTime
        then l.statistics.maximumQueryTime else e.maximumQueryTime)
        = max e.maximumQueryTime l.statistics.maximumQueryTime := by
      split <;> omega
    simp [contribFold, contribStep, accumulateItem, hmax]

def c1ExistingItem : SlowQueryStatisticsItem :=
  { sqlFingerprint := "q1", count := 2, latestLogTime := 50, totalQueryTime := 1000
    maximumQueryTime := 700, totalRowsSent := 10 }

def c1Stats : SlowQueryStatistics := ⟨[c1ExistingItem]⟩

def c1LogA : SlowQueryLog :=
  ⟨{ sqlFingerprint := "q1", count := 3, latestLogTime := 90, averageQueryTime := 200
     maximumQueryTime := 900, averageRowsSent := 4 }⟩

def c1LogB : SlowQueryLog :=
  ⟨{ sqlFingerprint := "q2", count := 5, latestLogTime := 80, averageQueryTime := 100
     maximumQueryTime := 300, averageRowsSent := 2 }⟩

def c1Logs : List SlowQueryLog := [c1LogA, c1LogB]

/-- Witness for C1 at a concrete merge exercising the fingerprint-present
branch. -/
theorem pgMerge_per_fingerprint_witness :
    findItem (pgMergeSlowQueryLog c1Stats c1Logs) "q1" =
      some { sqlFingerprint := "q1", count := 5, latestLogTime := 50, totalQueryTime := 1600
             maximumQueryTime := 900, totalRowsSent := 22 } := by
  have h := (pgMerge_per_fingerprint c1Stats c1Logs "q1" (by decide) (by decide)).2
    c1ExistingItem c1LogA (by decide) (by decide)
  rw [h]; decide

def optCount : Option SlowQueryStatisticsItem → Nat
  | none => 0
  | some v => v.count

def optTotal : Option SlowQueryStatisticsItem → Int
  | none => 0
  | some v => v.totalQueryTime

theorem optCount_contribFold (ls : List SlowQueryLog) (o : Option SlowQueryStatisticsItem) :
    optCount (contribFold o ls) = optCount o + (ls.map (fun l => l.statistics.count)).sum := by
  induction ls generalizing o with
  | nil => simp [contribFold, List.foldl_nil]
  | cons l rest ih =>
    have hstep : optCount (contribStep o l) = optCount o + l.statistics.count := by
      cases o <;> simp [contribStep, optCount, reconstructItem, accumulateItem]
    have : contribFold o (l :: rest) = contribFold (contribStep o l) rest := rfl
    rw [this, ih, hstep]
    simp [List.map_cons, List.sum_cons]
    omega

theorem optTotal_contribFold (ls : List SlowQueryLog) (o : Option SlowQueryStatisticsItem) :
    optTotal (contribFold o ls) =
      optTotal o +
        (ls.map (fun l => l.statistics.averageQueryTime * (l.statistics.count : Int))).sum := by
  induction ls generalizing o with
  | nil => simp [contribFold, List.foldl_nil]
  | cons l rest ih =>
    have hstep : optTotal (contribStep o l) =
        optTotal o + l.statistics.averageQueryTime * (l.statistics.count : Int) := by
      cases o <;> simp [contribStep, optTotal, reconstructItem, accumulateItem]
    have : contribFold o (l :: rest) = contribFold (contribStep o l) rest := rfl
    rw [this, ih, hstep]
    simp [List.map_cons, List.sum_cons]
    ring

theorem isSome_contribFold (ls : List SlowQueryLog) (o : Option SlowQueryStatisticsItem) :
    (contribFold o ls).isSome = (o.isSome || !ls.isEmpty) := by
  induction ls generalizing o with
  | nil => simp [contribFold]
  | cons l rest ih =>
    have hsome : (contribStep o l).isSome = true := by cases o <;> simp [contribStep]
    have : contribFold o (l :: rest) = contribFold (contribStep o l) rest := rfl
    rw [this, ih, hsome]
    simp

theorem keys_setFp_subset {m : List (String × SlowQueryStatisticsItem)} {f g : String}
    {v : SlowQueryStatisticsItem} (h : g ∈ (setFp m f v).map Prod.fst) :
    g ∈ m.map Prod.fst ∨ g = f := by
  induction m with
  | nil => simp [setFp] at h; exact Or.inr h
  | cons p rest ih =>
    obtain ⟨k, w⟩ := p
    by_cases hk : k = f
    · rw [setFp, if_pos hk] at h
      simp only [List.map_cons] at h ⊢
      rcases List.mem_cons.mp h with h | h
      · exact Or.inl (List.mem_cons.mpr (Or.inl h))
      · exact Or.inl (List.mem_cons.mpr (Or.inr h))
    · rw [setFp, if_neg hk] at h
      simp only [List.map_cons] at h ⊢
      rcases List.mem_cons.mp h with h | h
      · exact Or.inl (List.mem_cons.mpr (Or.inl h))
      · rcases ih h with h | h
        · exact Or.inl (List.mem_cons.mpr (Or.inr h))
        · exact Or.inr h

theorem nodup_keys_setFp {m : List (String × SlowQueryStatisticsItem)} {f : String}
    {v : SlowQueryStatisticsItem} (h : (m.map Prod.fst).Nodup) :
    ((setFp m f v).map Prod.fst).Nodup := by
  induction m with
  | nil => simp [setFp]
  | cons p rest ih =>
    obtain ⟨k, w⟩ := p
    simp only [List.map_cons, List.nodup_cons] at h
    by_cases hk : k = f
    · rw [setFp, if_pos hk]
      simp only [List.map_cons, List.nodup_cons]
      exact h
    · rw [setFp, if_neg hk]
      simp only [List.map_cons, List.nodup_cons]
      refine ⟨?_, ih h.2⟩
      intro hmem
      rcases keys_setFp_subset hmem with hmem | hmem
      · exact h.1 hmem
      · exact hk hmem

theorem nodup_keys_pgMergeFold {m : List (String × SlowQueryStatisticsItem)}
    (logs : List SlowQueryLog) (h : (m.map Prod.fst).Nodup) :
    ((logs.foldl pgMergeStep m).map Prod.fst).Nodup := by
  induction logs generalizing m with
  | nil => simpa using h
  | cons l rest ih =>
    simp only [List.foldl_cons]
    refine ih ?_
    rw [pgMergeStep]
    cases lookupFp m l.statistics.sqlFingerprint <;> exact nodup_keys_setFp h

theorem lastItemWith_values {m : List (String × SlowQueryStatisticsItem)}
    (hm : WellKeyed m) (hnd : (m.map Prod.fst).Nodup) (f : String) :
    lastItemWith (m.map Prod.snd) f = lookupFp m f := by
  induction m with
  | nil => rfl
  | cons p rest ih =>
    obtain ⟨k, w⟩ := p
    have hw : w.sqlFingerprint = k := hm (k, w) (List.mem_cons_self _ _)
    have hrest : WellKeyed rest := fun q hq => hm q (List.mem_cons_of_mem _ hq)
    simp only [List.map_cons, List.nodup_cons] at hnd
    by_cases hk : k = f
    · have hnone : ∀ it ∈ rest.map Prod.snd, it.sqlFingerprint ≠ f := by
        intro it hit hitf
        obtain ⟨q, hq, rfl⟩ := List.mem_map.mp hit
        have hq1 : q.2.sqlFingerprint = q.1 := hrest q hq
        exact hnd.1 (hk ▸ hitf ▸ hq1 ▸ List.mem_map_of_mem _ hq)
      rw [List.map_cons, lastItemWith]
      simp only [List.foldl_cons, hw, if_pos hk]
      rw [lastFold_of_not_mem _ (some w) hnone, lookupFp, if_pos hk]
    · rw [List.map_cons, lastItemWith]
      simp only [List.foldl_cons, hw, if_neg hk]
      rw [lookupFp, if_neg hk, ← lastItemWith]
      exact ih hrest hnd.2

theorem optionMap_count_eq {o o' : Option SlowQueryStatisticsItem}
    (hs : o.isSome = o'.isSome) (hc : optCount o = optCount o') :
    o.map (fun it => it.count) = o'.map (fun it => it.count) := by
  cases o <;> cases o' <;> simp_all [optCount]

theorem optionMap_total_eq {o o' : Option SlowQueryStatisticsItem}
    (hs : o.isSome = o'.isSome) (hc : optTotal o = optTotal o') :
    o.map (fun it => it.totalQueryTime) = o'.map (fun it => it.totalQueryTime) := by
  cases o <;> cases o' <;> simp_all [optTotal]

theorem findItem_merge_of_logs (A B : List SlowQueryLog) (f : String) :
    findItem (pgMergeSlowQueryLog (pgMergeSlowQueryLog ⟨[]⟩ A) B) f =
      contribFold (contribFold none (A.filter (fun l => l.statistics.sqlFingerprint == f)))
        (B.filter (fun l => l.statistics.sqlFingerprint == f)) := by
  rw [findItem_pgMergeSlowQueryLog]
  have hitems : (pgMergeSlowQueryLog ⟨[]⟩ A).items = (A.foldl pgMergeStep []).map Prod.snd := rfl
  rw [hitems,
    lastItemWith_values (wellKeyed_pgMergeFold A wellKeyed_nil)
      (nodup_keys_pgMergeFold A (by simp)) f,
    lookupFp_pgMergeFold]
  rfl

/-- C9: merging the same two inputs in either order (each input viewed through
the code's own average-to-total reconstruction) yields identical aggregate
`count` and `totalQueryTime` per fingerprint. -/
theorem pgMerge_commutative_aggregates (A B : List SlowQueryLog) (f : String) :
    ((findItem (pgMergeSlowQueryLog (pgMergeSlowQueryLog ⟨[]⟩ A) B) f).map
        (fun it => it.count) =
      (findItem (pgMergeSlowQueryLog (pgMergeSlowQueryLog ⟨[]⟩ B) A) f).map
        (fun it => it.count)) ∧
    ((findItem (pgMergeSlowQueryLog (pgMergeSlowQueryLog ⟨[]⟩ A) B) f).map
        (fun it => it.totalQueryTime) =
      (findItem (pgMergeSlowQueryLog (pgMergeSlowQueryLog ⟨[]⟩ B) A) f).map
        (fun it => it.totalQueryTime)) := by
  rw [findItem_merge_of_logs A B f, findItem_merge_of_logs B A f]
  have hs : (contribFold (contribFold none
        (A.filter (fun l => l.statistics.sqlFingerprint == f)))
        (B.filter (fun l => l.statistics.sqlFingerprint == f))).isSome =
      (contribFold (contribFold none
        (B.filter (fun l => l.statistics.sqlFingerprint == f)))
        (A.filter (fun l => l.statistics.sqlFingerprint == f))).isSome := by
    rw [isSome_contribFold, isSome_contribFold, isSome_contribFold, isSome_contribFold]
    simp [Bool.or_comm]
  constructor
  · refine optionMap_count_eq hs ?_
    rw [optCount_contribFold, optCount_contribFold, optCount_contribFold, optCount_contribFold]
    simp [optCount]
    omega
  · refine optionMap_total_eq hs ?_
    rw [optTotal_contribFold, optTotal_contribFold, optTotal_contribFold, optTotal_contribFold]
    simp [optTotal]
    ring

/-- Directed dependency edge of the task DAG (`store.TaskDAGMessage`). -/
structure TaskDAGMessage where
  fromTaskID : Int
  toTaskID : Int
deriving DecidableEq

/-- Filter of `ListTaskDags` (`store.TaskDAGFind`). -/
structure TaskDAGFind where
  stageID : Option Int
  pipelineID : Option Int
deriving DecidableEq

/-- Row of the joined `task` table as used by `ListTaskDags`. -/
structure TaskRecord where
  id : Int
  stageID : Int
  pipelineID : Int
deriving DecidableEq

/-- Committed effect of `RebuildTaskDAG`: delete every edge whose `to_task_id`
matches, then insert one edge per given predecessor. -/
def rebuildTaskDAGApply (edges : List TaskDAGMessage) (fromTaskIDs : List Int)
    (toTaskID : Int) : List TaskDAGMessage :=
  edges.filter (fun e => !(e.toTaskID == toTaskID)) ++
    fromTaskIDs.map (fun f => { fromTaskID := f, toTaskID := toTaskID })

/-- Outcome flags for the steps of the `RebuildTaskDAG` transaction. -/
structure TxFlags where
  beginOk : Bool
  deleteOk : Bool
  insertOk : Bool
  commitOk : Bool
deriving DecidableEq

/-- Model of `RebuildTaskDAG`: a transaction that deletes the target's inbound
edges and inserts the new predecessor set; any failing step rolls back, so the
visible edge list changes only on a successful commit. -/
def rebuildTaskDAG (edges : List TaskDAGMessage) (fromTaskIDs : List Int) (toTaskID : Int)
    (fl : TxFlags) : Except String Unit × List TaskDAGMessage :=
  if !fl.beginOk then (.error "failed to begin tx", edges)
  else if !fl.deleteOk then (.error "failed to delete old task dags", edges)
  else if !fl.insertOk then (.error "failed to insert task dag", edges)
  else if !fl.commitOk then (.error "failed to commit tx", edges)
  else (.ok (), rebuildTaskDAGApply edges fromTaskIDs toTaskID)

/-- Transaction flags of a fully successful call. -/
def txAllOk : TxFlags := { beginOk := true, deleteOk := true, insertOk := true, commitOk := true }

theorem rebuildTaskDAGApply_filter_to (edges : List TaskDAGMessage) (fromTaskIDs : List Int)
    (toTaskID : Int) :
    (rebuildTaskDAGApply edges fromTaskIDs toTaskID).filter (fun e => e.toTaskID == toTaskID) =
      fromTaskIDs.map (fun f => { fromTaskID := f, toTaskID := toTaskID }) := by
  rw [rebuildTaskDAGApply, List.filter_append]
  have h1 : (edges.filter (fun e => !(e.toTaskID == toTaskID))).filter
      (fun e => e.toTaskID == toTaskID) = [] := by
    rw [List.filter_filter]
    apply List.filter_eq_nil_iff.mpr
    intro e _
    cases h : (e.toTaskID == toTaskID) <;> simp [h]
  have h2 : ((fromTaskIDs.map (fun f => ({ fromTaskID := f, toTaskID := toTaskID } :
      TaskDAGMessage))).filter (fun e => e.toTaskID == toTaskID)) =
      fromTaskIDs.map (fun f => { fromTaskID := f, toTaskID := toTaskID }) := by
    apply List.filter_eq_self.mpr
    intro e he
    obtain ⟨ff, _, rfl⟩ := List.mem_map.mp he
    simp
  rw [h1, h2, List.nil_append]

/-- C4: after any successful rebuild the edges into the target are exactly one
edge per predecessor of that call and nothing else; in particular rebuilding
task 5 with `{1, 2}` and then with `{3}` leaves exactly `{(3, 5)}` for task 5. -/
theorem rebuildTaskDAG_last_call_wins (edges : List TaskDAGMessage) (fromTaskIDs : List Int)
    (toTaskID : Int) :
    ((rebuildTaskDAG edges fromTaskIDs toTaskID txAllOk).2.filter
        (fun e => e.toTaskID == toTaskID) =
      fromTaskIDs.map (fun f => { fromTaskID := f, toTaskID := toTaskID })) ∧
    ((rebuildTaskDAG (rebuildTaskDAG edges [1, 2] 5 txAllOk).2 [3] 5 txAllOk).2.filter
        (fun e => e.toTaskID == (5 : Int)) =
      [{ fromTaskID := 3, toTaskID := 5 }]) := by
  constructor
  · exact rebuildTaskDAGApply_filter_to edges fromTaskIDs toTaskID
  · exact rebuildTaskDAGApply_filter_to _ [3] 5

/-- C5: the rebuild is atomic. On success the stored edges are exactly the old
edges not pointing at the target plus the new predecessor edges; on any error
the stored edge list is completely unchanged. -/
theorem rebuildTaskDAG_atomic (edges : List TaskDAGMessage) (fromTaskIDs : List Int)
    (toTaskID : Int) (fl : TxFlags) :
    ((rebuildTaskDAG edges fromTaskIDs toTaskID fl).1 = .ok () →
      ∀ e, e ∈ (rebuildTaskDAG edges fromTaskIDs toTaskID fl).2 ↔
        ((e ∈ edges ∧ e.toTaskID ≠ toTaskID) ∨
          (e.toTaskID = toTaskID ∧ e.fromTaskID ∈ fromTaskIDs))) ∧
    (∀ msg, (rebuildTaskDAG edges fromTaskIDs toTaskID fl).1 = .error msg →
      (rebuildTaskDAG edges fromTaskIDs toTaskID fl).2 = edges) := by
  have hmem : ∀ e, e ∈ rebuildTaskDAGApply edges fromTaskIDs toTaskID ↔
      ((e ∈ edges ∧ e.toTaskID ≠ toTaskID) ∨
        (e.toTaskID = toTaskID ∧ e.fromTaskID ∈ fromTaskIDs)) := by
    intro e
    rw [rebuildTaskDAGApply, List.mem_append, List.mem_filter, List.mem_map]
    constructor
    · rintro (⟨he, hne⟩ | ⟨ff, hf, rfl⟩)
      · exact Or.inl ⟨he, by simpa using hne⟩
      · exact Or.inr ⟨rfl, hf⟩
    · rintro (⟨he, hne⟩ | ⟨hto, hfrom⟩)
      · exact Or.inl ⟨he, by simpa using hne⟩
      · refine Or.inr ⟨e.fromTaskID, hfrom, ?_⟩
        obtain ⟨ef, et⟩ := e
        simp only at hto
        rw [hto]
  obtain ⟨b, d, i, c⟩ := fl
  cases b <;> cases d <;> cases i <;> cases c <;>
    first
      | exact ⟨fun h => Except.noConfusion h, fun msg h => rfl⟩
      | exact ⟨fun _ => hmem, fun msg h => Except.noConfusion h⟩

def c5Edges : List TaskDAGMessage :=
  [{ fromTaskID := 1, toTaskID := 5 }, { fromTaskID := 2, toTaskID := 6 }]

/-- Witness for C5 at a concrete successful rebuild. -/
theorem rebuildTaskDAG_atomic_witness :
    ((rebuildTaskDAG c5Edges [3] 5 txAllOk).1 = .ok ()) ∧
    (∀ e, e ∈ (rebuildTaskDAG c5Edges [3] 5 txAllOk).2 ↔
      ((e ∈ c5Edges ∧ e.toTaskID ≠ 5) ∨ (e.toTaskID = 5 ∧ e.fromTaskID ∈ [(3 : Int)]))) :=
  ⟨rfl, (rebuildTaskDAG_atomic c5Edges [3] 5 txAllOk).1 rfl⟩

/-- WHERE conditions added by `ListTaskDags` on the joined `task` row. -/
def taskMatchesFind (find : TaskDAGFind) (t : TaskRecord) : Bool :=
  (match find.stageID with
   | none => true
   | some s => t.stageID == s) &&
  (match find.pipelineID with
   | none => true
   | some p => t.pipelineID == p)

/-- Model of `ListTaskDags`: when a stage or pipeline filter is present the
query joins `task` on `task.id = task_dag.from_task_id` (only the FROM
endpoint) and keeps the edge once per matching task row; without a filter it
returns all edges. -/
def listTaskDags (tasks : List TaskRecord) (edges : List TaskDAGMessage)
    (find : TaskDAGFind) : List TaskDAGMessage :=
  if find.stageID.isNone && find.pipelineID.isNone then edges
  else
    edges.flatMap (fun e =>
      (tasks.filter (fun t => t.id == e.fromTaskID && taskMatchesFind find t)).map
        (fun _ => e))

/-- Spec reading of `listEdges`, written from the spec's words: return the
edges BOTH of whose endpoints belong to the filtered stage/pipeline. -/
def specListTaskDags (tasks : List TaskRecord) (edges : List TaskDAGMessage)
    (find : TaskDAGFind) : List TaskDAGMessage :=
  edges.filter (fun e =>
    tasks.any (fun t => t.id == e.fromTaskID && taskMatchesFind find t) &&
    tasks.any (fun t => t.id == e.toTaskID && taskMatchesFind find t))

def c6Tasks : List TaskRecord :=
  [{ id := 1, stageID := 1, pipelineID := 1 }, { id := 2, stageID := 2, pipelineID := 1 }]

def c6Edges : List TaskDAGMessage := [{ fromTaskID := 1, toTaskID := 2 }]

def c6Find : TaskDAGFind := { stageID := some 1, pipelineID := none }

/-- Counterexample for C6: with task 1 in stage 1, task 2 in stage 2 and the
edge (1, 2), filtering on stage 1 returns the edge even though its to-endpoint
is not in stage 1, so the result differs from the both-endpoints reading. -/
theorem listTaskDags_counterexample :
    listTaskDags c6Tasks c6Edges c6Find = [{ fromTaskID := 1, toTaskID := 2 }] ∧
    specListTaskDags c6Tasks c6Edges c6Find = [] ∧
    listTaskDags c6Tasks c6Edges c6Find ≠ specListTaskDags c6Tasks c6Edges c6Find := by
  refine ⟨by decide, by decide, by decide⟩

/-- C6 amended: with a stage or pipeline filter present, `ListTaskDags`
returns exactly the edges whose FROM endpoint is a task row matching the
filter (the to-endpoint is not checked; the code relies on edges joining
tasks of the same stage and pipeline). -/
theorem listTaskDags_from_endpoint_filter (tasks : List TaskRecord)
    (edges : List TaskDAGMessage) (find : TaskDAGFind) (e : TaskDAGMessage)
    (hfilter : find.stageID ≠ none ∨ find.pipelineID ≠ none) :
    e ∈ listTaskDags tasks edges find ↔
      e ∈ edges ∧ ∃ t ∈ tasks, t.id = e.fromTaskID ∧ taskMatchesFind find t = true := by
  have hcond : (find.stageID.isNone && find.pipelineID.isNone) = false := by
    rcases hfilter with h | h
    · cases hs : find.stageID with
      | none => exact absurd hs h
      | some s => simp [hs]
    · cases hp : find.pipelineID with
      | none => exact absurd hp h
      | some p => simp [hp]
  rw [listTaskDags, hcond]
  simp only [Bool.false_eq_true, if_false, List.mem_flatMap, List.mem_map, List.mem_filter]
  constructor
  · rintro ⟨e', he', t, ⟨ht, hmatch⟩, rfl⟩
    rw [Bool.and_eq_true] at hmatch
    exact ⟨he', t, ht, by simpa using hmatch.1, hmatch.2⟩
  · rintro ⟨he, t, ht, hid, hmatch⟩
    exact ⟨e, he, t, ⟨ht, by simp [hid, hmatch]⟩, rfl⟩

/-- Witness for the amended C6 at a concrete filtered query. -/
theorem listTaskDags_from_endpoint_filter_witness :
    (c6Find.stageID ≠ none ∨ c6Find.pipelineID ≠ none) ∧
    ({ fromTaskID := 1, toTaskID := 2 : TaskDAGMessage } ∈ listTaskDags c6Tasks c6Edges c6Find ↔
      { fromTaskID := 1, toTaskID := 2 : TaskDAGMessage } ∈ c6Edges ∧
        ∃ t ∈ c6Tasks, t.id = (1 : Int) ∧ taskMatchesFind c6Find t = true) :=
  ⟨by decide, listTaskDags_from_endpoint_filter c6Tasks c6Edges c6Find _ (by decide)⟩

/-- One day, in seconds (times are modelled in seconds since the epoch). -/
def DAY : Int := 86400

/-- Number of days of slow query logs to keep (`retentionCycle`). -/
def retentionCycle : Int := 30

/-- Model of Go's `t.Truncate(24 * time.Hour)`: round down to a day boundary. -/
def truncateDay (t : Int) : Int := t - t % DAY

/-- Day sequence of the Go loop `for date := a; !date.After(b); date = date.AddDate(0, 0, 1)`,
given as an explicit iteration count. -/
def dateRangeAux (a : Int) : Nat → List Int
  | 0 => []
  | n + 1 => a :: dateRangeAux (a + DAY) n

/-- Days visited by the MySQL sync loop: `a, a + DAY, ...` while not after `b`. -/
def dateRange (a b : Int) : List Int :=
  if a ≤ b then dateRangeAux a ((b - a).toNat / DAY.toNat + 1) else []

/-- Store or driver operation performed by a sync routine. -/
inductive SyncEvent
  | deleteOutdated (cutoff : Int)
  | fetch (date : Int)
  | upsert (databaseName : String) (logDate : Int) (slowLog : SlowQueryStatistics)
deriving DecidableEq

/-- Slow-query log records of one instance, keyed by database name and log
date (`(instanceID, databaseName, logDate)` with the instance fixed). -/
structure SlowLogStore where
  records : List (String × Int × SlowQueryStatistics)
deriving DecidableEq

/-- Model of `DeleteOutdatedSlowLog`: drop records older than the cutoff. -/
def deleteOutdatedSlowLog (st : SlowLogStore) (earliest : Int) : SlowLogStore :=
  ⟨st.records.filter (fun r => !(r.2.1 < earliest : Bool))⟩

/-- Model of `UpsertSlowLog`: overwrite the record keyed by database name and
log date, or append it. -/
def upsertSlowLog (st : SlowLogStore) (db : String) (date : Int)
    (slowLog : SlowQueryStatistics) : SlowLogStore :=
  if st.records.any (fun r => r.1 == db && r.2.1 == date) then
    ⟨st.records.map (fun r => if r.1 == db && r.2.1 == date then (db, date, slowLog) else r)⟩
  else ⟨st.records ++ [(db, date, slowLog)]⟩

/-- Record stored for a database and log date, if any. -/
def lookupSlowLog (st : SlowLogStore) (db : String) (date : Int) :
    Option SlowQueryStatistics :=
  (st.records.find? (fun r => r.1 == db && r.2.1 == date)).map (fun r => r.2.2)

/-- Slow query policy of an instance (`GetSlowQueryPolicy` payload). -/
structure SlowQueryPolicy where
  active : Bool
deriving DecidableEq

/-- Database engine families distinguished by `syncInstanceSlowQuery`. -/
inductive Engine
  | mysql
  | postgres
  | unsupported
deriving DecidableEq

/-- Database row of `ListDatabases`: its name and whether its sync state is
`api.OK`. -/
structure DatabaseMessage where
  databaseName : String
  syncOK : Bool
deriving DecidableEq

/-- Environment of one `syncInstanceSlowQuery` call: outcomes of every store
and driver interaction the routine may perform. `isSystemDatabase` stands for
`pgparser.IsSystemDatabase` (whose source is outside the modelled files). -/
structure SyncEnv where
  now : Int
  policy : Except String (Option SlowQueryPolicy)
  engine : Engine
  deleteErr : Option String
  latestSlowLogDate : Except String (Option Int)
  mysqlDriverErr : Option String
  mysqlCheckErr : Option String
  mysqlFetch : Int → Except String (List (String × SlowQueryStatistics))
  mysqlUpsertErr : String → Int → Option String
  listDatabases : Except String (List DatabaseMessage)
  isSystemDatabase : String → Bool
  pgProbeErr : String → Option String
  pgDriverErr : Option String
  pgFetch : Except String (List (String × SlowQueryStatistics))
  pgListSlowQuery : String → Except String (List SlowQueryLog)
  pgUpsertErr : String → Option String

/-- Inner loop of a MySQL sync day: upsert the fetched statistics of every
database, stopping at the first upsert error. -/
def upsertDayLogs (env : SyncEnv) (date : Int) :
    List (String × SlowQueryStatistics) → SlowLogStore →
    Except String Unit × SlowLogStore × List SyncEvent
  | [], st => (.ok (), st, [])
  | (db, sl) :: rest, st =>
    match env.mysqlUpsertErr db date with
    | some e => (.error e, st, [.upsert db date sl])
    | none =>
      let r := upsertDayLogs env date rest (upsertSlowLog st db date sl)
      (r.1, r.2.1, .upsert db date sl :: r.2.2)

/-- Day loop of `syncMySQLSlowQuery`: fetch each day and upsert its result;
any fetch or upsert error aborts the remaining days. -/
def mysqlProcessDays (env : SyncEnv) :
    List Int → SlowLogStore → Except String Unit × SlowLogStore × List SyncEvent
  | [], st => (.ok (), st, [])
  | d :: rest, st =>
    match env.mysqlFetch d with
    | .error e => (.error e, st, [.fetch d])
    | .ok logs =>
      let u := upsertDayLogs env d logs st
      match u.1 with
      | .error e => (.error e, u.2.1, .fetch d :: u.2.2)
      | .ok _ =>
        let r := mysqlProcessDays env rest u.2.1
        (r.1, r.2.1, .fetch d :: (u.2.2 ++ r.2.2))

/-- Resume-point selection of `syncMySQLSlowQuery`: use the earliest retained
day when no record exists or the stored date has fallen out of the window. -/
def mysqlResume (today : Int) (latest : Option Int) : Int :=
  match latest with
  | none => today - retentionCycle * DAY
  | some d => if d + retentionCycle * DAY < today then today - retentionCycle * DAY else d

/-- Model of `syncMySQLSlowQuery`. -/
def syncMySQLSlowQuery (env : SyncEnv) (st0 : SlowLogStore) :
    Except String Unit × SlowLogStore × List SyncEvent :=
  let today := truncateDay env.now
  let earliest := today - retentionCycle * DAY
  match env.deleteErr with
  | some e => (.error e, st0, [])
  | none =>
    let st1 := deleteOutdatedSlowLog st0 earliest
    match env.latestSlowLogDate with
    | .error e => (.error e, st1, [.deleteOutdated earliest])
    | .ok latest0 =>
      match env.mysqlDriverErr with
      | some e => (.error e, st1, [.deleteOutdated earliest])
      | none =>
        match env.mysqlCheckErr with
        | some e => (.error e, st1, [.deleteOutdated earliest])
        | none =>
          let r := mysqlProcessDays env
            (dateRange (truncateDay (mysqlResume today latest0)) today) st1
          (r.1, r.2.1, .deleteOutdated earliest :: r.2.2)

/-- Model of `getLatestLogTime`: the Go double loop returns the timestamp of
the FIRST item of the first database that has one (0 is the zero time). -/
def getLatestLogTime : List (String × SlowQueryStatistics) → Int
  | [] => 0
  | (_, log) :: rest =>
    match log.items with
    | it :: _ => it.latestLogTime
    | [] => getLatestLogTime rest

/-- Spec reading of the snapshot timestamp, written from the spec's words:
the LATEST timestamp occurring among all items of all databases. -/
def specLatestLogTime (logMap : List (String × SlowQueryStatistics)) : Int :=
  (logMap.flatMap (fun p => p.2.items.map (fun it => it.latestLogTime))).foldl max 0

/-- Fetched statistics of a database in the snapshot map, if present. -/
def lookupLogMap (m : List (String × SlowQueryStatistics)) (db : String) :
    Option SlowQueryStatistics :=
  (m.find? (fun p => p.1 == db)).map Prod.snd

/-- First database that is in an OK sync state, is not a system database, and
passes the slow-query-log probe (`enabledDatabase` selection loop). -/
def pgPickEnabledDatabase (env : SyncEnv) (databases : List DatabaseMessage) :
    Option DatabaseMessage :=
  databases.find? (fun db =>
    db.syncOK && !env.isSystemDatabase db.databaseName &&
      (env.pgProbeErr db.databaseName).isNone)

/-- Statistics value upserted for a database by the PostgreSQL loop: the
fetched statistics, merged with previously persisted records when the store
read succeeds and returns a non-empty list. -/
def pgMergedFor (env : SyncEnv) (logMap : List (String × SlowQueryStatistics))
    (name : String) : SlowQueryStatistics :=
  match lookupLogMap logMap name with
  | none => ⟨[]⟩
  | some statistics =>
    match env.pgListSlowQuery name with
    | .error _ => statistics
    | .ok logs => if logs.isEmpty then statistics else pgMergeSlowQueryLog statistics logs

/-- Per-database upsert loop of `syncPostgreSQLSlowQuery`: read failures fall
back to the fetched statistics, upsert failures are logged and skipped, and
the loop always continues with the remaining databases. -/
def pgUpsertLoop (env : SyncEnv) (logMap : List (String × SlowQueryStatistics))
    (latestLogDate : Int) :
    List DatabaseMessage → SlowLogStore → SlowLogStore × List SyncEvent
  | [], st => (st, [])
  | db :: rest, st =>
    match lookupLogMap logMap db.databaseName with
    | none => pgUpsertLoop env logMap latestLogDate rest st
    | some _ =>
      let merged := pgMergedFor env logMap db.databaseName
      let st1 :=
        match env.pgUpsertErr db.databaseName with
        | some _ => st
        | none => upsertSlowLog st db.databaseName latestLogDate merged
      let r := pgUpsertLoop env logMap latestLogDate rest st1
      (r.1, .upsert db.databaseName latestLogDate merged :: r.2)

/-- Model of `syncPostgreSQLSlowQuery`. -/
def syncPostgreSQLSlowQuery (env : SyncEnv) (st0 : SlowLogStore) :
    Except String Unit × SlowLogStore × List SyncEvent :=
  let today := truncateDay env.now
  let earliest := today - retentionCycle * DAY
  match env.deleteErr with
  | some e => (.error e, st0, [])
  | none =>
    let st1 := deleteOutdatedSlowLog st0 earliest
    match env.listDatabases with
    | .error e => (.error e, st1, [.deleteOutdated earliest])
    | .ok databases =>
      match pgPickEnabledDatabase env databases with
      | none => (.error "no database is available for slow query sync", st1,
          [.deleteOutdated earliest])
      | some _ =>
        match env.pgDriverErr with
        | some e => (.error e, st1, [.deleteOutdated earliest])
        | none =>
          match env.pgFetch with
          | .error e => (.error e, st1, [.deleteOutdated earliest])
          | .ok logMap =>
            if getLatestLogTime logMap = 0 then (.ok (), st1, [.deleteOutdated earliest])
            else
              let r := pgUpsertLoop env logMap (truncateDay (getLatestLogTime logMap))
                databases st1
              (.ok (), r.1, .deleteOutdated earliest :: r.2)

/-- Model of `syncInstanceSlowQuery`: load the policy, skip silently when it
is absent or inactive, then dispatch by engine family. -/
def syncInstanceSlowQuery (env : SyncEnv) (st : SlowLogStore) :
    Except String Unit × SlowLogStore × List SyncEvent :=
  match env.policy with
  | .error e => (.error e, st, [])
  | .ok none => (.ok (), st, [])
  | .ok (some p) =>
    if !p.active then (.ok (), st, [])
    else
      match env.engine with
      | .mysql => syncMySQLSlowQuery env st
      | .postgres => syncPostgreSQLSlowQuery env st
      | .unsupported => (.error "unsupported database engine", st, [])

/-- C8: with an absent or inactive slow-query policy, `syncInstanceSlowQuery`
performs zero store writes and returns without error. -/
theorem syncInstance_skip_inactive (env : SyncEnv) (st : SlowLogStore)
    (h : env.policy = .ok none ∨ ∃ p, env.policy = .ok (some p) ∧ p.active = false) :
    syncInstanceSlowQuery env st = (.ok (), st, []) := by
  rcases h with h | ⟨p, hp, hact⟩
  · rw [syncInstanceSlowQuery, h]
  · rw [syncInstanceSlowQuery, hp]
    simp [hact]

/-- Environment with every interaction succeeding and returning no data. -/
def baseEnv : SyncEnv :=
  { now := 100 * 86400
    policy := .ok (some ⟨true⟩)
    engine := .mysql
    deleteErr := none
    latestSlowLogDate := .ok none
    mysqlDriverErr := none
    mysqlCheckErr := none
    mysqlFetch := fun _ => .ok []
    mysqlUpsertErr := fun _ _ => none
    listDatabases := .ok []
    isSystemDatabase := fun _ => false
    pgProbeErr := fun _ => none
    pgDriverErr := none
    pgFetch := .ok []
    pgListSlowQuery := fun _ => .ok []
    pgUpsertErr := fun _ => none }

/-- Witness for C8: a concrete instance whose policy is absent. -/
theorem syncInstance_skip_inactive_witness :
    syncInstanceSlowQuery { baseEnv with policy := .ok none } ⟨[]⟩ = (.ok (), ⟨[]⟩, []) :=
  syncInstance_skip_inactive { baseEnv with policy := .ok none } ⟨[]⟩ (Or.inl rfl)

theorem dateRangeAux_append (a : Int) (m n : Nat) :
    dateRangeAux a (m + n) = dateRangeAux a m ++ dateRangeAux (a + m * DAY) n := by
  induction m generalizing a with
  | zero => simp [dateRangeAux]
  | succ k ih =>
    have h1 : k + 1 + n = (k + n) + 1 := by omega
    rw [h1]
    show a :: dateRangeAux (a + DAY) (k + n) =
      (a :: dateRangeAux (a + DAY) k) ++ dateRangeAux (a + (k + 1 : Nat) * DAY) n
    rw [List.cons_append, ih]
    have h2 : a + DAY + (k : Int) * DAY = a + ((k + 1 : Nat) : Int) * DAY := by
      push_cast
      ring
    rw [h2]

theorem mem_dateRangeAux {a d : Int} {n : Nat} :
    d ∈ dateRangeAux a n ↔ ∃ i : Nat, i < n ∧ d = a + i * DAY := by
  induction n generalizing a with
  | zero => simp [dateRangeAux]
  | succ k ih =>
    simp only [dateRangeAux, List.mem_cons, ih]
    constructor
    · rintro (rfl | ⟨i, hi, rfl⟩)
      · exact ⟨0, by omega, by simp⟩
      · exact ⟨i + 1, by omega, by push_cast; ring⟩
    · rintro ⟨i, hi, rfl⟩
      cases i with
      | zero => left; simp
      | succ j => right; exact ⟨j, by omega, by push_cast; ring⟩

theorem chain_dateRangeAux (a : Int) (n : Nat) :
    List.Chain' (fun x y => x < y) (dateRangeAux a n) := by
  induction n generalizing a with
  | zero => simp [dateRangeAux]
  | succ k ih =>
    rw [dateRangeAux]
    refine List.chain'_cons'.mpr ⟨?_, ih (a + DAY)⟩
    intro b hb
    cases k with
    | zero => simp [dateRangeAux] at hb
    | succ j =>
      rw [dateRangeAux] at hb
      simp only [List.head?_cons, Option.mem_def, Option.some.injEq] at hb
      subst hb
      have hD : (0 : Int) < DAY := by decide
      omega

theorem dateRange_chain (a b : Int) : List.Chain' (fun x y => x < y) (dateRange a b) := by
  rw [dateRange]
  split
  · exact chain_dateRangeAux _ _
  · simp

theorem mem_dateRange {a b d : Int} :
    d ∈ dateRange a b ↔ a ≤ d ∧ d ≤ b ∧ DAY ∣ (d - a) := by
  rw [dateRange]
  split
  case isTrue hab =>
    rw [mem_dateRangeAux]
    constructor
    · rintro ⟨i, hi, rfl⟩
      refine ⟨?_, ?_, ⟨(i : Int), by ring⟩⟩
      · simp only [show DAY = (86400 : Int) from rfl, show Int.toNat (86400 : Int) = 86400 from rfl] at *
        omega
      · simp only [show DAY = (86400 : Int) from rfl, show Int.toNat (86400 : Int) = 86400 from rfl] at *
        omega
    · rintro ⟨h1, h2, c, hc⟩
      refine ⟨c.toNat, ?_, ?_⟩
      · simp only [show DAY = (86400 : Int) from rfl, show Int.toNat (86400 : Int) = 86400 from rfl] at *
        omega
      · simp only [show DAY = (86400 : Int) from rfl, show Int.toNat (86400 : Int) = 86400 from rfl] at *
        omega
  case isFalse hab =>
    simp only [List.not_mem_nil, false_iff]
    rintro ⟨h1, h2, _⟩
    exact hab (le_trans h1 h2)

theorem dateRange_nodup (a b : Int) : (dateRange a b).Nodup := by
  have h := List.chain'_iff_pairwise.mp (dateRange_chain a b)
  exact h.imp (fun hlt => ne_of_lt hlt)

theorem dateRangeAux_eq_dateRange (a : Int) (k : Nat) :
    dateRangeAux a k = dateRange a (a + k * DAY - DAY) := by
  cases k with
  | zero =>
    rw [dateRange]
    split
    case isTrue h =>
      exfalso
      simp only [Nat.cast_zero, zero_mul, add_zero, DAY] at h
      omega
    case isFalse h => rfl
  | succ j =>
    rw [dateRange]
    split
    case isTrue h =>
      congr 1
      simp only [show DAY = (86400 : Int) from rfl, show Int.toNat (86400 : Int) = 86400 from rfl] at *
      push_cast at *
      omega
    case isFalse h =>
      exfalso
      apply h
      push_cast [DAY]
      omega

theorem dateRangeAux_suffix (a b : Int) (k : Nat) (hab : a ≤ b)
    (hk : k ≤ (b - a).toNat / DAY.toNat) :
    dateRangeAux (a + k * DAY + DAY) ((b - a).toNat / DAY.toNat - k) =
      dateRange (a + k * DAY + DAY) b := by
  rw [dateRange]
  split
  case isTrue h =>
    congr 1
    simp only [show DAY = (86400 : Int) from rfl, show Int.toNat (86400 : Int) = 86400 from rfl] at *
    omega
  case isFalse h =>
    have hz : (b - a).toNat / DAY.toNat - k = 0 := by
      simp only [show DAY = (86400 : Int) from rfl, show Int.toNat (86400 : Int) = 86400 from rfl] at *
      omega
    rw [hz]
    rfl

theorem dateRange_split {a b d : Int} (h : d ∈ dateRange a b) :
    dateRange a b = dateRange a (d - DAY) ++ d :: dateRange (d + DAY) b := by
  obtain ⟨h1, h2, c, hc⟩ := mem_dateRange.mp h
  have hab : a ≤ b := le_trans h1 h2
  have hd : d = a + (c.toNat : Int) * DAY := by
    simp only [show DAY = (86400 : Int) from rfl, show Int.toNat (86400 : Int) = 86400 from rfl] at *
    omega
  have hkle : c.toNat ≤ (b - a).toNat / DAY.toNat := by
    simp only [show DAY = (86400 : Int) from rfl, show Int.toNat (86400 : Int) = 86400 from rfl] at *
    omega
  have hsplit : (b - a).toNat / DAY.toNat + 1 =
      c.toNat + (((b - a).toNat / DAY.toNat - c.toNat) + 1) := by
    omega
  rw [dateRange, if_pos hab, hsplit, dateRangeAux_append]
  have hpre : dateRangeAux a c.toNat = dateRange a (d - DAY) := by
    rw [dateRangeAux_eq_dateRange]
    congr 1
    rw [hd]
  rw [hpre]
  congr 1
  show (a + (c.toNat : Int) * DAY) ::
      dateRangeAux (a + (c.toNat : Int) * DAY + DAY) ((b - a).toNat / DAY.toNat - c.toNat) =
    d :: dateRange (d + DAY) b
  rw [← hd]
  congr 1
  have hsuf := dateRangeAux_suffix a b c.toNat hab hkle
  rw [← hd] at hsuf
  exact hsuf

theorem find?_map_upsert (recs : List (String × Int × SlowQueryStatistics)) (db : String)
    (date : Int) (sl : SlowQueryStatistics)
    (h : recs.any (fun r => r.1 == db && r.2.1 == date) = true) :
    (recs.map (fun r => if r.1 == db && r.2.1 == date then (db, date, sl) else r)).find?
      (fun r => r.1 == db && r.2.1 == date) = some (db, date, sl) := by
  induction recs with
  | nil => simp at h
  | cons r rest ih =>
    by_cases hr : (r.1 == db && r.2.1 == date) = true
    · simp only [List.map_cons, if_pos hr, List.find?]
      simp
    · have hr' : (r.1 == db && r.2.1 == date) = false := by
        simpa using hr
      simp only [List.map_cons, hr', Bool.false_eq_true, if_false, List.find?]
      apply ih
      simpa [List.any_cons, hr'] using h

theorem find?_map_upsert_other (recs : List (String × Int × SlowQueryStatistics))
    (db' : String) (date' : Int) (sl' : SlowQueryStatistics) (db : String) (date : Int)
    (hne : ¬(db = db' ∧ date = date')) :
    (recs.map (fun r => if r.1 == db' && r.2.1 == date' then (db', date', sl') else r)).find?
      (fun r => r.1 == db && r.2.1 == date) =
    recs.find? (fun r => r.1 == db && r.2.1 == date) := by
  induction recs with
  | nil => rfl
  | cons r rest ih =>
    simp only [List.map_cons, List.find?]
    by_cases hr : (r.1 == db' && r.2.1 == date') = true
    · rw [if_pos hr]
      simp only [Bool.and_eq_true, beq_iff_eq] at hr
      have h1 : ((db', date', sl').1 == db && (db', date', sl').2.1 == date) = false := by
        simp only [Bool.and_eq_false_iff, beq_eq_false_iff_ne, ne_eq]
        by_cases hdb : db' = db
        · right
          intro hdd
          exact hne ⟨hdb.symm, hdd.symm⟩
        · left
          exact hdb
      have h2 : (r.1 == db && r.2.1 == date) = false := by
        simp only [Bool.and_eq_false_iff, beq_eq_false_iff_ne, ne_eq]
        by_cases hdb : r.1 = db
        · right
          intro hdd
          exact hne ⟨hdb.symm.trans hr.1, hdd.symm.trans hr.2⟩
        · left
          exact hdb
      rw [h1, h2]
      exact ih
    · rw [if_neg hr]
      cases hp : (r.1 == db && r.2.1 == date) with
      | true => simp [hp]
      | false =>
        simp only [hp]
        exact ih

theorem lookupSlowLog_upsert_self (st : SlowLogStore) (db : String) (date : Int)
    (sl : SlowQueryStatistics) :
    lookupSlowLog (upsertSlowLog st db date sl) db date = some sl := by
  rw [upsertSlowLog]
  split
  case isTrue h =>
    rw [lookupSlowLog, find?_map_upsert st.records db date sl h]
    rfl
  case isFalse h =>
    rw [lookupSlowLog, List.find?_append]
    have h0 : st.records.find? (fun r => r.1 == db && r.2.1 == date) = none := by
      rw [List.find?_eq_none]
      intro x hx hpx
      exact h (List.any_eq_true.mpr ⟨x, hx, hpx⟩)
    rw [h0]
    simp [List.find?]

theorem lookupSlowLog_upsert_other (st : SlowLogStore) (db' : String) (date' : Int)
    (sl' : SlowQueryStatistics) (db : String) (date : Int)
    (hne : ¬(db = db' ∧ date = date')) :
    lookupSlowLog (upsertSlowLog st db' date' sl') db date = lookupSlowLog st db date := by
  rw [upsertSlowLog]
  split
  case isTrue h =>
    rw [lookupSlowLog, lookupSlowLog, find?_map_upsert_other st.records db' date' sl' db date hne]
  case isFalse h =>
    rw [lookupSlowLog, lookupSlowLog, List.find?_append]
    have h1 : ([(db', date', sl')].find? (fun r => r.1 == db && r.2.1 == date)) = none := by
      simp only [List.find?, Bool.and_eq_false_iff, beq_eq_false_iff_ne, ne_eq]
      have : ((db', date', sl').1 == db && (db', date', sl').2.1 == date) = false := by
        simp only [Bool.and_eq_false_iff, beq_eq_false_iff_ne, ne_eq]
        by_cases hdb : db' = db
        · right
          intro hdd
          exact hne ⟨hdb.symm, hdd.symm⟩
        · left
          exact hdb
      rw [this]
    rw [h1]
    cases h2 : st.records.find? (fun r => r.1 == db && r.2.1 == date) <;> simp [h2]

/-- Upsert events recorded for one fetched day. -/
def mysqlDayUpserts (r : Except String (List (String × SlowQueryStatistics))) (d : Int) :
    List SyncEvent :=
  match r with
  | .ok logs => logs.map (fun p => .upsert p.1 d p.2)
  | .error _ => []

/-- Dates of the fetch events of a trace, in order. -/
def fetchDates (evs : List SyncEvent) : List Int :=
  evs.filterMap (fun ev => match ev with | .fetch d => some d | _ => none)

/-- Store contents after upserting one successfully fetched day. -/
def applyDayLogs (logs : List (String × SlowQueryStatistics)) (d : Int) (st : SlowLogStore) :
    SlowLogStore :=
  logs.foldl (fun s p => upsertSlowLog s p.1 d p.2) st

/-- Store contents after a list of successfully processed days. -/
def applyDays (env : SyncEnv) : List Int → SlowLogStore → SlowLogStore
  | [], st => st
  | d :: rest, st =>
    match env.mysqlFetch d with
    | .ok logs => applyDays env rest (applyDayLogs logs d st)
    | .error _ => applyDays env rest st

/-- Success of one sync day: the fetch succeeds, the fetched database names
are distinct, and every upsert of that day succeeds. -/
def mysqlDayOk (env : SyncEnv) (d : Int) : Bool :=
  match env.mysqlFetch d with
  | .ok logs =>
    decide ((logs.map Prod.fst).Nodup) && logs.all (fun p => (env.mysqlUpsertErr p.1 d).isNone)
  | .error _ => false

theorem mysqlDayOk_spec {env : SyncEnv} {d : Int} (h : mysqlDayOk env d = true) :
    ∃ logs, env.mysqlFetch d = .ok logs ∧ (logs.map Prod.fst).Nodup ∧
      ∀ p ∈ logs, env.mysqlUpsertErr p.1 d = none := by
  rw [mysqlDayOk] at h
  cases hf : env.mysqlFetch d with
  | error e => rw [hf] at h; cases h
  | ok logs =>
    rw [hf] at h
    simp only [Bool.and_eq_true, decide_eq_true_eq, List.all_eq_true] at h
    refine ⟨logs, rfl, h.1, fun p hp => ?_⟩
    have := h.2 p hp
    simpa [Option.isNone_iff_eq_none] using this

theorem fetchDates_nil : fetchDates [] = [] := rfl

theorem fetchDates_cons_fetch (d : Int) (l : List SyncEvent) :
    fetchDates (.fetch d :: l) = d :: fetchDates l := rfl

theorem fetchDates_cons_upsert (db : String) (date : Int) (sl : SlowQueryStatistics)
    (l : List SyncEvent) : fetchDates (.upsert db date sl :: l) = fetchDates l := rfl

theorem fetchDates_cons_delete (c : Int) (l : List SyncEvent) :
    fetchDates (.deleteOutdated c :: l) = fetchDates l := rfl

theorem fetchDates_append (l1 l2 : List SyncEvent) :
    fetchDates (l1 ++ l2) = fetchDates l1 ++ fetchDates l2 := by
  simp [fetchDates, List.filterMap_append]

theorem fetchDates_dayUpserts (r : Except String (List (String × SlowQueryStatistics)))
    (d : Int) : fetchDates (mysqlDayUpserts r d) = [] := by
  cases r with
  | error e => rfl
  | ok logs =>
    induction logs with
    | nil => rfl
    | cons p rest ih =>
      show fetchDates (.upsert p.1 d p.2 :: rest.map (fun p => .upsert p.1 d p.2)) = []
      rw [fetchDates_cons_upsert]
      exact ih

theorem fetchDates_dayBlocks (env : SyncEnv) (days : List Int) :
    fetchDates (days.flatMap (fun d =>
      SyncEvent.fetch d :: mysqlDayUpserts (env.mysqlFetch d) d)) = days := by
  induction days with
  | nil => rfl
  | cons d rest ih =>
    rw [List.flatMap_cons, List.cons_append, fetchDates_cons_fetch, fetchDates_append,
      fetchDates_dayUpserts, List.nil_append, ih]

theorem upsertDayLogs_ok (env : SyncEnv) (d : Int) (logs : List (String × SlowQueryStatistics))
    (st : SlowLogStore) (h : ∀ p ∈ logs, env.mysqlUpsertErr p.1 d = none) :
    upsertDayLogs env d logs st =
      (.ok (), applyDayLogs logs d st, logs.map (fun p => .upsert p.1 d p.2)) := by
  induction logs generalizing st with
  | nil => rfl
  | cons p rest ih =>
    obtain ⟨db, sl⟩ := p
    have h0 : env.mysqlUpsertErr db d = none := h (db, sl) (List.mem_cons_self _ _)
    simp only [upsertDayLogs, h0]
    rw [ih _ (fun q hq => h q (List.mem_cons_of_mem _ hq))]
    rfl

theorem mysqlProcessDays_ok (env : SyncEnv) (days : List Int) (st : SlowLogStore)
    (h : ∀ d ∈ days, mysqlDayOk env d = true) :
    mysqlProcessDays env days st =
      (.ok (), applyDays env days st,
        days.flatMap (fun d => .fetch d :: mysqlDayUpserts (env.mysqlFetch d) d)) := by
  induction days generalizing st with
  | nil => rfl
  | cons d rest ih =>
    obtain ⟨logs, hf, hnd, hup⟩ := mysqlDayOk_spec (h d (List.mem_cons_self _ _))
    simp only [mysqlProcessDays, hf]
    rw [upsertDayLogs_ok env d logs st hup]
    simp only []
    rw [ih _ (fun x hx => h x (List.mem_cons_of_mem _ hx))]
    simp only [applyDays, hf, mysqlDayUpserts, List.flatMap_cons, List.cons_append]

theorem mysqlProcessDays_failAt (env : SyncEnv) (pre : List Int) (dF : Int) (post : List Int)
    (e : String) (st : SlowLogStore)
    (hpre : ∀ d ∈ pre, mysqlDayOk env d = true)
    (hF : env.mysqlFetch dF = .error e) :
    mysqlProcessDays env (pre ++ dF :: post) st =
      (.error e, applyDays env pre st,
        pre.flatMap (fun d => .fetch d :: mysqlDayUpserts (env.mysqlFetch d) d) ++
          [.fetch dF]) := by
  induction pre generalizing st with
  | nil =>
    simp only [List.nil_append, mysqlProcessDays, hF, applyDays, List.flatMap_nil]
  | cons d rest ih =>
    obtain ⟨logs, hf, hnd, hup⟩ := mysqlDayOk_spec (hpre d (List.mem_cons_self _ _))
    simp only [List.cons_append, mysqlProcessDays, hf]
    rw [upsertDayLogs_ok env d logs st hup]
    simp only [List.append_eq]
    rw [ih _ (fun x hx => hpre x (List.mem_cons_of_mem _ hx))]
    simp only [applyDays, hf, mysqlDayUpserts, List.flatMap_cons, List.cons_append,
      List.append_assoc]

theorem lookup_applyDayLogs_other_date (logs : List (String × SlowQueryStatistics)) (d : Int)
    (st : SlowLogStore) (db : String) (d' : Int) (hne : d' ≠ d) :
    lookupSlowLog (applyDayLogs logs d st) db d' = lookupSlowLog st db d' := by
  induction logs generalizing st with
  | nil => rfl
  | cons p rest ih =>
    rw [show applyDayLogs (p :: rest) d st = applyDayLogs rest d (upsertSlowLog st p.1 d p.2)
      from rfl]
    rw [ih]
    exact lookupSlowLog_upsert_other st p.1 d p.2 db d' (fun hh => hne hh.2)

theorem lookup_applyDayLogs_notmem (logs : List (String × SlowQueryStatistics)) (d : Int)
    (st : SlowLogStore) (db : String) (d'' : Int) (hnm : db ∉ logs.map Prod.fst) :
    lookupSlowLog (applyDayLogs logs d st) db d'' = lookupSlowLog st db d'' := by
  induction logs generalizing st with
  | nil => rfl
  | cons p rest ih =>
    have hne : db ≠ p.1 := by
      intro hh
      exact hnm (hh ▸ List.mem_map_of_mem _ (List.mem_cons_self _ _))
    rw [show applyDayLogs (p :: rest) d st = applyDayLogs rest d (upsertSlowLog st p.1 d p.2)
      from rfl]
    rw [ih _ (fun hh => hnm (List.mem_cons_of_mem _ hh))]
    exact lookupSlowLog_upsert_other st p.1 d p.2 db d'' (fun hh => hne hh.1)

theorem lookup_applyDayLogs_self (logs : List (String × SlowQueryStatistics)) (d : Int)
    (st : SlowLogStore) (hnd : (logs.map Prod.fst).Nodup) (p : String × SlowQueryStatistics)
    (hp : p ∈ logs) :
    lookupSlowLog (applyDayLogs logs d st) p.1 d = some p.2 := by
  induction logs generalizing st with
  | nil => cases hp
  | cons q rest ih =>
    rw [show applyDayLogs (q :: rest) d st = applyDayLogs rest d (upsertSlowLog st q.1 d q.2)
      from rfl]
    rcases List.mem_cons.mp hp with rfl | hp'
    · have hnm : p.1 ∉ rest.map Prod.fst := (List.nodup_cons.mp hnd).1
      rw [lookup_applyDayLogs_notmem rest d _ p.1 d hnm]
      exact lookupSlowLog_upsert_self st p.1 d p.2
    · exact ih _ (List.nodup_cons.mp hnd).2 hp'

theorem lookup_applyDays_notmem_date (env : SyncEnv) (days : List Int) (st : SlowLogStore)
    (db : String) (d : Int) (h : d ∉ days) :
    lookupSlowLog (applyDays env days st) db d = lookupSlowLog st db d := by
  induction days generalizing st with
  | nil => rfl
  | cons d0 rest ih =>
    have hne : d ≠ d0 := fun hh => h (hh ▸ List.mem_cons_self _ _)
    have hrest : d ∉ rest := fun hh => h (List.mem_cons_of_mem _ hh)
    cases hf : env.mysqlFetch d0 with
    | ok logs =>
      simp only [applyDays, hf]
      rw [ih _ hrest]
      exact lookup_applyDayLogs_other_date logs d0 st db d hne
    | error e =>
      simp only [applyDays, hf]
      exact ih _ hrest

theorem lookup_applyDays_committed (env : SyncEnv) (days : List Int) (st : SlowLogStore)
    (hnd : days.Nodup) (d : Int) (hd : d ∈ days) (logs : List (String × SlowQueryStatistics))
    (hf : env.mysqlFetch d = .ok logs) (hlnd : (logs.map Prod.fst).Nodup)
    (p : String × SlowQueryStatistics) (hp : p ∈ logs) :
    lookupSlowLog (applyDays env days st) p.1 d = some p.2 := by
  induction days generalizing st with
  | nil => cases hd
  | cons d0 rest ih =>
    rcases List.mem_cons.mp hd with rfl | hd'
    · have hnm : d ∉ rest := (List.nodup_cons.mp hnd).1
      simp only [applyDays, hf]
      rw [lookup_applyDays_notmem_date env rest _ p.1 d hnm]
      exact lookup_applyDayLogs_self logs d st hlnd p hp
    · cases hf0 : env.mysqlFetch d0 with
      | ok logs0 =>
        simp only [applyDays, hf0]
        exact ih _ (List.nodup_cons.mp hnd).2 hd'
      | error e =>
        simp only [applyDays, hf0]
        exact ih _ (List.nodup_cons.mp hnd).2 hd'

theorem truncateDay_emod (t : Int) : (t - t % DAY) % DAY = 0 := by
  rw [Int.sub_emod, Int.emod_emod_of_dvd t dvd_rfl, sub_self, Int.zero_emod]

theorem truncateDay_idem (t : Int) : truncateDay (truncateDay t) = truncateDay t := by
  have h := truncateDay_emod t
  simp only [truncateDay] at *
  rw [h, sub_zero]

theorem truncateDay_sub_days (t k : Int) :
    truncateDay (truncateDay t - k * DAY) = truncateDay t - k * DAY := by
  have h : (t - t % DAY - k * DAY) % DAY = 0 := by
    rw [Int.sub_emod (t - t % DAY) (k * DAY), truncateDay_emod, Int.mul_emod_left,
      sub_self, Int.zero_emod]
  simp only [truncateDay] at *
  rw [h, sub_zero]

theorem truncateDay_mysqlResume (now : Int) (latest0 : Option Int)
    (halign : ∀ x, latest0 = some x → truncateDay x = x) :
    truncateDay (mysqlResume (truncateDay now) latest0) =
      max (latest0.getD (truncateDay now - retentionCycle * DAY))
        (truncateDay now - retentionCycle * DAY) := by
  cases latest0 with
  | none =>
    simp only [mysqlResume, Option.getD, max_self]
    exact truncateDay_sub_days now retentionCycle
  | some x =>
    have hx := halign x rfl
    simp only [mysqlResume, Option.getD]
    by_cases hcond : x + retentionCycle * DAY < truncateDay now
    · rw [if_pos hcond]
      have h1 : truncateDay (truncateDay now - retentionCycle * DAY) =
          truncateDay now - retentionCycle * DAY := truncateDay_sub_days now retentionCycle
      have hle : x ≤ truncateDay now - retentionCycle * DAY := by
        simp only [retentionCycle, show DAY = (86400 : Int) from rfl] at hcond ⊢
        omega
      rw [h1]
      exact (max_eq_right hle).symm
    · rw [if_neg hcond]
      have hge : truncateDay now - retentionCycle * DAY ≤ x := by
        simp only [retentionCycle, show DAY = (86400 : Int) from rfl] at hcond ⊢
        omega
      rw [hx]
      exact (max_eq_left hge).symm

theorem syncMySQL_run_ok (env : SyncEnv) (st : SlowLogStore) (L0 : Option Int)
    (hdel : env.deleteErr = none) (hlat : env.latestSlowLogDate = .ok L0)
    (hdrv : env.mysqlDriverErr = none) (hchk : env.mysqlCheckErr = none) :
    syncMySQLSlowQuery env st =
      ((mysqlProcessDays env
          (dateRange (truncateDay (mysqlResume (truncateDay env.now) L0)) (truncateDay env.now))
          (deleteOutdatedSlowLog st (truncateDay env.now - retentionCycle * DAY))).1,
       (mysqlProcessDays env
          (dateRange (truncateDay (mysqlResume (truncateDay env.now) L0)) (truncateDay env.now))
          (deleteOutdatedSlowLog st (truncateDay env.now - retentionCycle * DAY))).2.1,
       .deleteOutdated (truncateDay env.now - retentionCycle * DAY) ::
         (mysqlProcessDays env
          (dateRange (truncateDay (mysqlResume (truncateDay env.now) L0)) (truncateDay env.now))
          (deleteOutdatedSlowLog st (truncateDay env.now - retentionCycle * DAY))).2.2) := by
  rw [syncMySQLSlowQuery]
  simp only [hdel, hlat, hdrv, hchk]

/-- C2: the MySQL-family routine resumes at `max(lastKnownLogDate, today - 30
days)` (absent means `today - 30 days`), and on a fully successful run fetches
and upserts one day at a time, in strictly ascending date order, exactly the
days from the resume point through today inclusive. -/
theorem syncMySQL_success_trace (env : SyncEnv) (st : SlowLogStore) (L0 : Option Int)
    (hdel : env.deleteErr = none)
    (hlat : env.latestSlowLogDate = .ok L0)
    (halign : ∀ x, L0 = some x → truncateDay x = x)
    (hdrv : env.mysqlDriverErr = none)
    (hchk : env.mysqlCheckErr = none)
    (hok : ∀ d ∈ dateRange
        (max (L0.getD (truncateDay env.now - retentionCycle * DAY))
          (truncateDay env.now - retentionCycle * DAY)) (truncateDay env.now),
      mysqlDayOk env d = true) :
    (syncMySQLSlowQuery env st).1 = .ok () ∧
    (syncMySQLSlowQuery env st).2.2 =
      .deleteOutdated (truncateDay env.now - retentionCycle * DAY) ::
        (dateRange (max (L0.getD (truncateDay env.now - retentionCycle * DAY))
            (truncateDay env.now - retentionCycle * DAY)) (truncateDay env.now)).flatMap
          (fun d => .fetch d :: mysqlDayUpserts (env.mysqlFetch d) d) ∧
    fetchDates (syncMySQLSlowQuery env st).2.2 =
      dateRange (max (L0.getD (truncateDay env.now - retentionCycle * DAY))
        (truncateDay env.now - retentionCycle * DAY)) (truncateDay env.now) ∧
    List.Chain' (fun x y => x < y) (fetchDates (syncMySQLSlowQuery env st).2.2) ∧
    (∀ d, d ∈ fetchDates (syncMySQLSlowQuery env st).2.2 ↔
      (max (L0.getD (truncateDay env.now - retentionCycle * DAY))
          (truncateDay env.now - retentionCycle * DAY) ≤ d ∧ d ≤ truncateDay env.now ∧
        DAY ∣ (d - max (L0.getD (truncateDay env.now - retentionCycle * DAY))
          (truncateDay env.now - retentionCycle * DAY)))) := by
  have hres := truncateDay_mysqlResume env.now L0 halign
  have hrun := syncMySQL_run_ok env st L0 hdel hlat hdrv hchk
  rw [hres] at hrun
  rw [mysqlProcessDays_ok env _ _ hok] at hrun
  rw [hrun]
  refine ⟨rfl, rfl, ?_, ?_, ?_⟩
  · show fetchDates (SyncEvent.deleteOutdated _ :: _) = _
    rw [fetchDates_cons_delete, fetchDates_dayBlocks]
  · show List.Chain' _ (fetchDates (SyncEvent.deleteOutdated _ :: _))
    rw [fetchDates_cons_delete, fetchDates_dayBlocks]
    exact dateRange_chain _ _
  · intro d
    show d ∈ fetchDates (SyncEvent.deleteOutdated _ :: _) ↔ _
    rw [fetchDates_cons_delete, fetchDates_dayBlocks]
    exact mem_dateRange

/-- Concrete MySQL environment: last known log date five days ago, every fetch
returning one database. -/
def c2Env : SyncEnv :=
  { baseEnv with
    latestSlowLogDate := .ok (some 8208000)
    mysqlFetch := fun _ => .ok [("db1", ⟨[]⟩)] }

/-- Witness for C2 at a concrete fully successful run. -/
theorem syncMySQL_success_trace_witness :
    (∀ d ∈ dateRange
        (max ((some (8208000 : Int)).getD (truncateDay c2Env.now - retentionCycle * DAY))
          (truncateDay c2Env.now - retentionCycle * DAY)) (truncateDay c2Env.now),
      mysqlDayOk c2Env d = true) ∧
    (syncMySQLSlowQuery c2Env ⟨[]⟩).1 = .ok () :=
  ⟨by decide, (syncMySQL_success_trace c2Env ⟨[]⟩ (some 8208000) rfl rfl
    (by intro x hx; injection hx with hx'; subst hx'; decide) rfl rfl (by decide)).1⟩

theorem fetch_not_mem_dayUpserts {x : Int}
    {r : Except String (List (String × SlowQueryStatistics))} {d : Int} :
    SyncEvent.fetch x ∉ mysqlDayUpserts r d := by
  intro h
  cases r with
  | error e => exact List.not_mem_nil _ h
  | ok logs =>
    obtain ⟨p, hp, heq⟩ := List.mem_map.mp h
    cases heq

theorem upsert_mem_dayUpserts {db : String} {d' : Int} {sl : SlowQueryStatistics}
    {r : Except String (List (String × SlowQueryStatistics))} {d : Int}
    (h : SyncEvent.upsert db d' sl ∈ mysqlDayUpserts r d) : d' = d := by
  cases r with
  | error e => exact absurd h (List.not_mem_nil _)
  | ok logs =>
    obtain ⟨p, hp, heq⟩ := List.mem_map.mp h
    injection heq with h1 h2 h3
    exact h2.symm

theorem fetch_mem_dayBlocks {env : SyncEnv} {days : List Int} {d' : Int}
    (h : SyncEvent.fetch d' ∈ days.flatMap (fun d =>
      SyncEvent.fetch d :: mysqlDayUpserts (env.mysqlFetch d) d)) : d' ∈ days := by
  obtain ⟨d, hd, hmem⟩ := List.mem_flatMap.mp h
  rcases List.mem_cons.mp hmem with heq | hup
  · injection heq with h1
    exact h1 ▸ hd
  · exact absurd hup fetch_not_mem_dayUpserts

/-- C3: when the fetch of one day in the iterated range fails, the routine
returns that error, every earlier day's upserted data stays committed, and no
later day is fetched or upserted. -/
theorem syncMySQL_fetch_failure (env : SyncEnv) (st : SlowLogStore) (L0 : Option Int)
    (dF : Int) (e : String)
    (hdel : env.deleteErr = none)
    (hlat : env.latestSlowLogDate = .ok L0)
    (halign : ∀ x, L0 = some x → truncateDay x = x)
    (hdrv : env.mysqlDriverErr = none)
    (hchk : env.mysqlCheckErr = none)
    (hmem : dF ∈ dateRange (max (L0.getD (truncateDay env.now - retentionCycle * DAY))
        (truncateDay env.now - retentionCycle * DAY)) (truncateDay env.now))
    (hF : env.mysqlFetch dF = .error e)
    (hpre : ∀ d ∈ dateRange (max (L0.getD (truncateDay env.now - retentionCycle * DAY))
        (truncateDay env.now - retentionCycle * DAY)) (dF - DAY), mysqlDayOk env d = true) :
    (syncMySQLSlowQuery env st).1 = .error e ∧
    fetchDates (syncMySQLSlowQuery env st).2.2 =
      dateRange (max (L0.getD (truncateDay env.now - retentionCycle * DAY))
        (truncateDay env.now - retentionCycle * DAY)) (dF - DAY) ++ [dF] ∧
    (∀ d', SyncEvent.fetch d' ∈ (syncMySQLSlowQuery env st).2.2 → d' ≤ dF) ∧
    (∀ db d' sl, SyncEvent.upsert db d' sl ∈ (syncMySQLSlowQuery env st).2.2 → d' < dF) ∧
    (∀ d ∈ dateRange (max (L0.getD (truncateDay env.now - retentionCycle * DAY))
        (truncateDay env.now - retentionCycle * DAY)) (dF - DAY),
      ∀ logs, env.mysqlFetch d = .ok logs →
        ∀ p ∈ logs, lookupSlowLog (syncMySQLSlowQuery env st).2.1 p.1 d = some p.2) := by
  have hres := truncateDay_mysqlResume env.now L0 halign
  have hrun := syncMySQL_run_ok env st L0 hdel hlat hdrv hchk
  rw [hres] at hrun
  rw [dateRange_split hmem] at hrun
  rw [mysqlProcessDays_failAt env _ dF _ e _ hpre hF] at hrun
  rw [hrun]
  have hDpos : (0 : Int) < DAY := by decide
  refine ⟨rfl, ?_, ?_, ?_, ?_⟩
  · show fetchDates (SyncEvent.deleteOutdated _ :: _) = _
    rw [fetchDates_cons_delete, fetchDates_append, fetchDates_dayBlocks]
    rfl
  · intro d' hmem'
    rcases List.mem_cons.mp hmem' with heq | hmem2
    · cases heq
    · rcases List.mem_append.mp hmem2 with hpre2 | hlast
      · have hd := fetch_mem_dayBlocks hpre2
        have hle := (mem_dateRange.mp hd).2.1
        omega
      · rcases List.mem_cons.mp hlast with heq | h0
        · injection heq with h1
          omega
        · exact absurd h0 (List.not_mem_nil _)
  · intro db d' sl hmem'
    rcases List.mem_cons.mp hmem' with heq | hmem2
    · cases heq
    · rcases List.mem_append.mp hmem2 with hpre2 | hlast
      · obtain ⟨d, hd, hmem3⟩ := List.mem_flatMap.mp hpre2
        rcases List.mem_cons.mp hmem3 with heq | hup
        · cases heq
        · have hd' : d' = d := upsert_mem_dayUpserts hup
          have hle := (mem_dateRange.mp hd).2.1
          omega
      · rcases List.mem_cons.mp hlast with heq | h0
        · cases heq
        · exact absurd h0 (List.not_mem_nil _)
  · intro d hd logs hlogs p hp
    obtain ⟨logs', hf', hnd', hup'⟩ := mysqlDayOk_spec (hpre d hd)
    rw [hlogs] at hf'
    injection hf' with hf''
    subst hf''
    exact lookup_applyDays_committed env _ _ (dateRange_nodup _ _) d hd logs hlogs hnd' p hp

/-- Concrete MySQL environment: last known log date five days ago, fetch
failing two days ago. -/
def c3Env : SyncEnv :=
  { baseEnv with
    latestSlowLogDate := .ok (some 8208000)
    mysqlFetch := fun d =>
      if d < 8467200 then .ok [("db1", ⟨[]⟩)] else .error "fetch failed" }

/-- Witness for C3 at the concrete scenario of the spec: days today-5..today-3
succeed, the fetch of today-2 fails. -/
theorem syncMySQL_fetch_failure_witness :
    ((8467200 : Int) ∈ dateRange
        (max ((some (8208000 : Int)).getD (truncateDay c3Env.now - retentionCycle * DAY))
          (truncateDay c3Env.now - retentionCycle * DAY)) (truncateDay c3Env.now)) ∧
    (syncMySQLSlowQuery c3Env ⟨[]⟩).1 = .error "fetch failed" := by
  have h := syncMySQL_fetch_failure c3Env ⟨[]⟩ (some 8208000) 8467200 "fetch failed"
    rfl rfl (by intro x hx; injection hx with hx'; subst hx'; decide) rfl rfl
    (by decide) rfl (by decide)
  exact ⟨by decide, h.1⟩

theorem pgUpsertLoop_events (env : SyncEnv) (logMap : List (String × SlowQueryStatistics))
    (date : Int) (dbs : List DatabaseMessage) (st : SlowLogStore) :
    (pgUpsertLoop env logMap date dbs st).2 =
      (dbs.filter (fun db => (lookupLogMap logMap db.databaseName).isSome)).map
        (fun db => .upsert db.databaseName date (pgMergedFor env logMap db.databaseName)) := by
  induction dbs generalizing st with
  | nil => rfl
  | cons db rest ih =>
    cases hl : lookupLogMap logMap db.databaseName with
    | none =>
      simp only [pgUpsertLoop, hl, List.filter_cons, Option.isSome_none, Bool.false_eq_true,
        if_false]
      exact ih st
    | some stats =>
      simp only [pgUpsertLoop, hl, List.filter_cons, Option.isSome_some, if_true, List.map_cons]
      congr 1
      exact ih _

/-- Upsert events of a trace that target a given database name. -/
def upsertsForName (name : String) (evs : List SyncEvent) : List SyncEvent :=
  evs.filter (fun ev =>
    match ev with
    | .upsert n _ _ => n == name
    | _ => false)

theorem upsertsForName_cons_upsert_eq (name : String) (d : Int) (sl : SlowQueryStatistics)
    (l : List SyncEvent) :
    upsertsForName name (.upsert name d sl :: l) = .upsert name d sl :: upsertsForName name l := by
  simp [upsertsForName, List.filter_cons]

theorem upsertsForName_cons_upsert_ne {n name : String} (hne : (n == name) = false) (d : Int)
    (sl : SlowQueryStatistics) (l : List SyncEvent) :
    upsertsForName name (.upsert n d sl :: l) = upsertsForName name l := by
  simp [upsertsForName, List.filter_cons, hne]

theorem upsertsForName_cons_delete (name : String) (c : Int) (l : List SyncEvent) :
    upsertsForName name (.deleteOutdated c :: l) = upsertsForName name l := rfl

theorem upsertsForName_pgBlocks_notmem (env : SyncEnv)
    (logMap : List (String × SlowQueryStatistics)) (date : Int)
    (rest : List DatabaseMessage) (name : String)
    (hnm : name ∉ rest.map (fun db => db.databaseName)) :
    upsertsForName name
      ((rest.filter (fun db => (lookupLogMap logMap db.databaseName).isSome)).map
        (fun db => .upsert db.databaseName date (pgMergedFor env logMap db.databaseName))) =
      [] := by
  induction rest with
  | nil => rfl
  | cons db0 rest' ih =>
    have hnm' : name ∉ rest'.map (fun db => db.databaseName) := by
      intro hh
      exact hnm (List.mem_cons_of_mem _ hh)
    have h0 : (db0.databaseName == name) = false := by
      simp only [beq_eq_false_iff_ne, ne_eq]
      intro hh
      exact hnm (List.mem_cons.mpr (Or.inl hh.symm))
    rw [List.filter_cons]
    by_cases hk : (lookupLogMap logMap db0.databaseName).isSome = true
    · rw [if_pos hk, List.map_cons, upsertsForName_cons_upsert_ne h0]
      exact ih hnm'
    · rw [if_neg hk]
      exact ih hnm'

theorem upsertsForName_pgBlocks (env : SyncEnv) (logMap : List (String × SlowQueryStatistics))
    (date : Int) (dbs : List DatabaseMessage) (name : String)
    (hnd : (dbs.map (fun db => db.databaseName)).Nodup)
    (hex : ∃ db ∈ dbs, db.databaseName = name)
    (hsome : (lookupLogMap logMap name).isSome = true) :
    upsertsForName name
      ((dbs.filter (fun db => (lookupLogMap logMap db.databaseName).isSome)).map
        (fun db => .upsert db.databaseName date (pgMergedFor env logMap db.databaseName))) =
      [.upsert name date (pgMergedFor env logMap name)] := by
  induction dbs with
  | nil =>
    obtain ⟨db, hdb, _⟩ := hex
    exact absurd hdb (List.not_mem_nil _)
  | cons db0 rest ih =>
    rw [List.map_cons, List.nodup_cons] at hnd
    by_cases h0 : db0.databaseName = name
    · subst h0
      rw [List.filter_cons, if_pos hsome, List.map_cons, upsertsForName_cons_upsert_eq]
      rw [upsertsForName_pgBlocks_notmem env logMap date rest _ hnd.1]
    · have hex' : ∃ db ∈ rest, db.databaseName = name := by
        obtain ⟨db, hdb, hn⟩ := hex
        rcases List.mem_cons.mp hdb with rfl | hdb'
        · exact absurd hn h0
        · exact ⟨db, hdb', hn⟩
      have hb : (db0.databaseName == name) = false := by simpa using h0
      rw [List.filter_cons]
      by_cases hk : (lookupLogMap logMap db0.databaseName).isSome = true
      · rw [if_pos hk, List.map_cons, upsertsForName_cons_upsert_ne hb]
        exact ih hnd.2 hex'
      · rw [if_neg hk]
        exact ih hnd.2 hex'

theorem pgSync_run_empty (env : SyncEnv) (st : SlowLogStore) (dbs : List DatabaseMessage)
    (logMap : List (String × SlowQueryStatistics))
    (hdel : env.deleteErr = none)
    (hdbs : env.listDatabases = .ok dbs)
    (hpick : (pgPickEnabledDatabase env dbs).isSome = true)
    (hdrv : env.pgDriverErr = none)
    (hfetch : env.pgFetch = .ok logMap)
    (hzero : getLatestLogTime logMap = 0) :
    syncPostgreSQLSlowQuery env st =
      (.ok (), deleteOutdatedSlowLog st (truncateDay env.now - retentionCycle * DAY),
        [.deleteOutdated (truncateDay env.now - retentionCycle * DAY)]) := by
  obtain ⟨db0, hdb0⟩ := Option.isSome_iff_exists.mp hpick
  rw [syncPostgreSQLSlowQuery]
  simp only [hdel, hdbs, hdrv, hfetch, hdb0]
  rw [if_pos hzero]

theorem pgSync_run (env : SyncEnv) (st : SlowLogStore) (dbs : List DatabaseMessage)
    (logMap : List (String × SlowQueryStatistics))
    (hdel : env.deleteErr = none)
    (hdbs : env.listDatabases = .ok dbs)
    (hpick : (pgPickEnabledDatabase env dbs).isSome = true)
    (hdrv : env.pgDriverErr = none)
    (hfetch : env.pgFetch = .ok logMap)
    (hnz : getLatestLogTime logMap ≠ 0) :
    syncPostgreSQLSlowQuery env st =
      (.ok (), (pgUpsertLoop env logMap (truncateDay (getLatestLogTime logMap)) dbs
          (deleteOutdatedSlowLog st (truncateDay env.now - retentionCycle * DAY))).1,
        .deleteOutdated (truncateDay env.now - retentionCycle * DAY) ::
          (pgUpsertLoop env logMap (truncateDay (getLatestLogTime logMap)) dbs
            (deleteOutdatedSlowLog st (truncateDay env.now - retentionCycle * DAY))).2) := by
  obtain ⟨db0, hdb0⟩ := Option.isSome_iff_exists.mp hpick
  rw [syncPostgreSQLSlowQuery]
  simp only [hdel, hdbs, hdrv, hfetch, hdb0]
  rw [if_neg hnz]

theorem pgSync_nonzero_char (env : SyncEnv) (st : SlowLogStore)
    (dbs : List DatabaseMessage) (logMap : List (String × SlowQueryStatistics))
    (hdel : env.deleteErr = none)
    (hdbs : env.listDatabases = .ok dbs)
    (hpick : (pgPickEnabledDatabase env dbs).isSome = true)
    (hdrv : env.pgDriverErr = none)
    (hfetch : env.pgFetch = .ok logMap)
    (hnd : (dbs.map (fun db => db.databaseName)).Nodup)
    (hnz : getLatestLogTime logMap ≠ 0) :
    (syncPostgreSQLSlowQuery env st).1 = .ok () ∧
    (∀ db ∈ dbs, (lookupLogMap logMap db.databaseName).isSome = true →
      upsertsForName db.databaseName (syncPostgreSQLSlowQuery env st).2.2 =
        [.upsert db.databaseName (truncateDay (getLatestLogTime logMap))
          (pgMergedFor env logMap db.databaseName)]) := by
  rw [pgSync_run env st dbs logMap hdel hdbs hpick hdrv hfetch hnz]
  refine ⟨rfl, ?_⟩
  intro db hdb hsome
  show upsertsForName db.databaseName (.deleteOutdated _ :: _) = _
  rw [upsertsForName_cons_delete, pgUpsertLoop_events]
  exact upsertsForName_pgBlocks env logMap _ dbs db.databaseName hnd
    ⟨db, hdb, rfl⟩ hsome

/-- C7 amended: the upsert day is the snapshot's FIRST item timestamp (not the
latest), truncated to a day; with that day, every listed database present in
the snapshot receives exactly one upsert keyed on it, and a snapshot with no
items makes the routine perform no upsert and return no error. -/
theorem pgSync_upserts_characterization (env : SyncEnv) (st : SlowLogStore)
    (dbs : List DatabaseMessage) (logMap : List (String × SlowQueryStatistics))
    (hdel : env.deleteErr = none)
    (hdbs : env.listDatabases = .ok dbs)
    (hpick : (pgPickEnabledDatabase env dbs).isSome = true)
    (hdrv : env.pgDriverErr = none)
    (hfetch : env.pgFetch = .ok logMap)
    (hnd : (dbs.map (fun db => db.databaseName)).Nodup) :
    (getLatestLogTime logMap = 0 →
      syncPostgreSQLSlowQuery env st =
        (.ok (), deleteOutdatedSlowLog st (truncateDay env.now - retentionCycle * DAY),
          [.deleteOutdated (truncateDay env.now - retentionCycle * DAY)])) ∧
    (getLatestLogTime logMap ≠ 0 →
      (syncPostgreSQLSlowQuery env st).1 = .ok () ∧
      (∀ db ∈ dbs, (lookupLogMap logMap db.databaseName).isSome = true →
        upsertsForName db.databaseName (syncPostgreSQLSlowQuery env st).2.2 =
          [.upsert db.databaseName (truncateDay (getLatestLogTime logMap))
            (pgMergedFor env logMap db.databaseName)])) := by
  constructor
  · intro hzero
    exact pgSync_run_empty env st dbs logMap hdel hdbs hpick hdrv hfetch hzero
  · intro hnz
    exact pgSync_nonzero_char env st dbs logMap hdel hdbs hpick hdrv hfetch hnd hnz

/-- C10: in the PostgreSQL per-database upsert loop any read or upsert failure
is contained to its database: the routine still returns success, a database
whose persisted-record read fails is upserted with the freshly fetched
statistics unmerged, and every listed database present in the snapshot still
receives exactly one upsert. -/
theorem pgSync_per_database_isolation (env : SyncEnv) (st : SlowLogStore)
    (dbs : List DatabaseMessage) (logMap : List (String × SlowQueryStatistics))
    (hdel : env.deleteErr = none)
    (hdbs : env.listDatabases = .ok dbs)
    (hpick : (pgPickEnabledDatabase env dbs).isSome = true)
    (hdrv : env.pgDriverErr = none)
    (hfetch : env.pgFetch = .ok logMap)
    (hnd : (dbs.map (fun db => db.databaseName)).Nodup)
    (hnz : getLatestLogTime logMap ≠ 0) :
    (syncPostgreSQLSlowQuery env st).1 = .ok () ∧
    (∀ db ∈ dbs, ∀ stats, lookupLogMap logMap db.databaseName = some stats →
      ∀ msg, env.pgListSlowQuery db.databaseName = .error msg →
        upsertsForName db.databaseName (syncPostgreSQLSlowQuery env st).2.2 =
          [.upsert db.databaseName (truncateDay (getLatestLogTime logMap)) stats]) ∧
    (∀ db ∈ dbs, (lookupLogMap logMap db.databaseName).isSome = true →
      (upsertsForName db.databaseName (syncPostgreSQLSlowQuery env st).2.2).length = 1) := by
  have hchar := pgSync_nonzero_char env st dbs logMap hdel hdbs hpick hdrv hfetch hnd hnz
  refine ⟨hchar.1, ?_, ?_⟩
  · intro db hdb stats hstats msg hmsg
    have h := hchar.2 db hdb (by rw [hstats]; rfl)
    rw [h]
    have hmerged : pgMergedFor env logMap db.databaseName = stats := by
      rw [pgMergedFor, hstats, hmsg]
    rw [hmerged]
  · intro db hdb hsome
    rw [hchar.2 db hdb hsome]
    rfl

def c7Item1 : SlowQueryStatisticsItem :=
  { sqlFingerprint := "q1", count := 1, latestLogTime := 86405, totalQueryTime := 10
    maximumQueryTime := 10, totalRowsSent := 1 }

def c7Item2 : SlowQueryStatisticsItem :=
  { sqlFingerprint := "q2", count := 1, latestLogTime := 172807, totalQueryTime := 10
    maximumQueryTime := 10, totalRowsSent := 1 }

/-- Snapshot whose items carry timestamps on two different days; the first
item's day is day 1, the latest timestamp is on day 2. -/
def c7LogMap : List (String × SlowQueryStatistics) := [("db1", ⟨[c7Item1, c7Item2]⟩)]

def c7Env : SyncEnv :=
  { baseEnv with
    engine := .postgres
    listDatabases := .ok [{ databaseName := "db1", syncOK := true }]
    pgFetch := .ok c7LogMap }

/-- Counterexample for C7: with a snapshot whose items span two days, the
routine keys its upsert on the first item's day (86400), not on the day of the
latest timestamp among all items (172800). -/
theorem pgSync_latest_counterexample :
    getLatestLogTime c7LogMap = 86405 ∧
    truncateDay (getLatestLogTime c7LogMap) = 86400 ∧
    specLatestLogTime c7LogMap = 172807 ∧
    truncateDay (specLatestLogTime c7LogMap) = 172800 ∧
    (syncPostgreSQLSlowQuery c7Env ⟨[]⟩).2.2 =
      [.deleteOutdated 6048000, .upsert "db1" 86400 ⟨[c7Item1, c7Item2]⟩] ∧
    (86400 : Int) ≠ 172800 := by
  exact ⟨by decide, by decide, by decide, by decide, by decide, by decide⟩

/-- Witness for the amended C7 at a concrete snapshot. -/
theorem pgSync_upserts_characterization_witness :
    (getLatestLogTime c7LogMap ≠ 0) ∧
    ((syncPostgreSQLSlowQuery c7Env ⟨[]⟩).1 = .ok () ∧
      (∀ db ∈ [({ databaseName := "db1", syncOK := true } : DatabaseMessage)],
        (lookupLogMap c7LogMap db.databaseName).isSome = true →
        upsertsForName db.databaseName (syncPostgreSQLSlowQuery c7Env ⟨[]⟩).2.2 =
          [.upsert db.databaseName (truncateDay (getLatestLogTime c7LogMap))
            (pgMergedFor c7Env c7LogMap db.databaseName)])) :=
  ⟨by decide, (pgSync_upserts_characterization c7Env ⟨[]⟩
    [{ databaseName := "db1", syncOK := true }] c7LogMap rfl rfl (by decide) rfl rfl
    (by decide)).2 (by decide)⟩

/-- Concrete PostgreSQL environment whose persisted-record reads fail. -/
def c10Env : SyncEnv :=
  { c7Env with pgListSlowQuery := fun _ => .error "read failed" }

/-- Witness for C10 at a concrete run with a failing persisted-record read. -/
theorem pgSync_per_database_isolation_witness :
    (getLatestLogTime c7LogMap ≠ 0) ∧
    ((syncPostgreSQLSlowQuery c10Env ⟨[]⟩).1 = .ok () ∧
      (∀ db ∈ [({ databaseName := "db1", syncOK := true } : DatabaseMessage)],
        ∀ stats, lookupLogMap c7LogMap db.databaseName = some stats →
        ∀ msg, c10Env.pgListSlowQuery db.databaseName = .error msg →
          upsertsForName db.databaseName (syncPostgreSQLSlowQuery c10Env ⟨[]⟩).2.2 =
            [.upsert db.databaseName (truncateDay (getLatestLogTime c7LogMap)) stats])) := by
  have h := pgSync_per_database_isolation c10Env ⟨[]⟩
    [{ databaseName := "db1", syncOK := true }] c7LogMap rfl rfl (by decide) rfl rfl
    (by decide) (by decide)
  exact ⟨by decide, h.1, h.2.1⟩
